import Mathlib

/-!
Verification of the scenario execution engine in
`mininet-control/abyss_test/scenario_runner.go`.

The Go code is shallowly embedded:

* `World` mirrors `and.World` restricted to what the runner observes
  (its stable `SessionID()`).
* `joinLoopGo` / `joinLoop` embed the JOIN retry loop
  (`scenario_runner.go` lines 115-129).
* `stepOut` / `runFrom` embed the step dispatch of `ScenarioRunner.Run`
  (lines 49-153); external effects (file reads, host calls, log output)
  are recorded as an ordered list of `ExecEvent`s, and the operations
  performed under `world_mtx` (plus the final sink close) are recorded
  as an ordered list of `ExecOp`s.
* `handleEvent` embeds one iteration of `ScenarioRunner.HandleEvents`
  (lines 156-213).
* `sysStep` / `sysRun` give an interleaving semantics for the two
  loops: each lock-protected region of the source is one atomic step,
  and a schedule (`List Bool`) picks which loop moves next.

Machine integers: `time_start`, `duration` and the parsed step offsets
are Go `int64`; `int64wrap` applies two's-complement wrap-around where
the source adds them.  Timestamps of trace lines are not modelled (no
claim depends on their values); a trace line keeps its event code, its
printed subject, and a ghost field `wsid` recording the session id of
the world the line concerns.
-/

set_option maxRecDepth 10000

namespace AbyssScenario

/-- A joined or hosted world, as seen by the runner: only its stable
session id (`and.World.SessionID()`) is ever observed. -/
structure World where
  session_id : String
  deriving DecidableEq, Repr

/-- Two's-complement wrap-around to Go `int64`, applied where the
source adds `int64` values. -/
def int64wrap (x : Int) : Int :=
  (x + 2 ^ 63) % 2 ^ 64 - 2 ^ 63

/-- Go `strconv.ParseInt(s, 10, 64)`: optional sign, at least one
decimal digit, value within `int64` range; `none` models a non-`nil`
error. -/
def parseInt (s : String) : Option Int :=
  let cs := s.toList
  let sign_digits : Bool × List Char :=
    match cs with
    | '+' :: rest => (false, rest)
    | '-' :: rest => (true, rest)
    | _ => (false, cs)
  let ds := sign_digits.2
  if ds = [] then none
  else if ds.all Char.isDigit then
    let n : Int := Int.ofNat (ds.foldl (fun a c => a * 10 + (c.toNat - '0'.toNat)) 0)
    let v : Int := if sign_digits.1 then -n else n
    if v < -(2 ^ 63) ∨ 2 ^ 63 - 1 < v then none else some v
  else none

/-- Go `path.Join` for already-clean arguments, as used with the
contact directory and a file name. -/
def pathJoin (d f : String) : String :=
  if d = "" then f else if f = "" then d else d ++ "/" ++ f

/-- A raw scenario step: one `map[string]string` entry of
`ScenarioRunner.scenario`, as an association list. -/
abbrev StepDesc := List (String × String)

/-- Go map lookup `step[k]` distinguishing presence (`v, ok := step[k]`). -/
def stepGet (s : StepDesc) (k : String) : Option String :=
  (s.find? (fun p => p.1 == k)).map (fun p => p.2)

/-- Go map lookup `step[k]` in value position: a missing key yields `""`. -/
def stepGetD (s : StepDesc) (k : String) : String :=
  (stepGet s k).getD ""

/-- Outcome of the JOIN retry loop (`scenario_runner.go` 115-129):
`assigns` lists, in order, the values assigned to `sr.world` by the
successive `JoinWorld` calls (`none` for a call that returned an
error), `error_logged` records the `log.Println` at `i == 99`, and
`sleeps` counts the `time.Sleep(100ms)` calls after failed attempts. -/
structure JoinResult where
  assigns : List (Option World)
  error_logged : Bool
  sleeps : Nat
  deriving DecidableEq, Repr

/-- The world referenced after the retry loop: the last value assigned
to `sr.world`, or the value it had before the loop (`nil`) if no call
was made. -/
def JoinResult.world (r : JoinResult) : Option World :=
  r.assigns.getLast?.getD none

/-- The JOIN retry loop body, with `i` the Go loop variable of
`for i := range 100` and `fuel` the remaining iteration count
(`fuel = 100 - i` at every real call, so the `fuel = 0` base case is
never reached before the `i == 99` check).  `att i` is the result of
the `JoinWorld` call of iteration `i` (`none` = error). -/
def joinLoopGo (att : Nat → Option World) : Nat → Nat → JoinResult
  | _, 0 => ⟨[], false, 0⟩
  | i, fuel + 1 =>
    if i = 99 then ⟨[], true, 0⟩
    else
      match att i with
      | some w => ⟨[some w], false, 0⟩
      | none =>
        let r := joinLoopGo att (i + 1) fuel
        ⟨none :: r.assigns, r.error_logged, r.sleeps + 1⟩

/-- The JOIN retry loop of `scenario_runner.go` lines 115-129. -/
def joinLoop (att : Nat → Option World) : JoinResult :=
  joinLoopGo att 0 100

theorem joinLoopGo_all_fail (att : Nat → Option World) :
    ∀ fuel i, i + fuel = 100 → i ≤ 99 →
      (∀ k, i ≤ k → k < 99 → att k = none) →
      joinLoopGo att i fuel = ⟨List.replicate (99 - i) none, true, 99 - i⟩ := by
  intro fuel
  induction fuel with
  | zero => intro i h h99 _; omega
  | succ n ih =>
    intro i h h99 hfail
    by_cases h9 : i = 99
    · subst h9
      simp [joinLoopGo]
    · have hlt : i < 99 := by omega
      have hi : att i = none := hfail i le_rfl hlt
      have hrec := ih (i + 1) (by omega) (by omega)
        (fun k hk hk' => hfail k (by omega) hk')
      simp only [joinLoopGo, if_neg h9, hi, hrec]
      have : 99 - i = (99 - (i + 1)) + 1 := by omega
      simp [this, List.replicate_succ]

theorem joinLoopGo_first_success (att : Nat → Option World) :
    ∀ fuel i k w, i + fuel = 100 → i ≤ k → k < 99 →
      att k = some w → (∀ j, i ≤ j → j < k → att j = none) →
      joinLoopGo att i fuel = ⟨List.replicate (k - i) none ++ [some w], false, k - i⟩ := by
  intro fuel
  induction fuel with
  | zero => intro i k w h _ h99 _ _; omega
  | succ n ih =>
    intro i k w h hik h99 hk hfail
    have h9 : i ≠ 99 := by omega
    by_cases hieq : i = k
    · subst hieq
      simp [joinLoopGo, if_neg h9, hk]
    · have hi : att i = none := hfail i le_rfl (by omega)
      have hrec := ih (i + 1) k w (by omega) (by omega) h99 hk
        (fun j hj hj' => hfail j (by omega) hj')
      simp only [joinLoopGo, if_neg h9, hi, hrec]
      have : k - i = (k - (i + 1)) + 1 := by omega
      simp [this, List.replicate_succ]

theorem joinLoopGo_length_le (att : Nat → Option World) :
    ∀ fuel i, i + fuel = 100 → i ≤ 99 →
      (joinLoopGo att i fuel).assigns.length ≤ 99 - i := by
  intro fuel
  induction fuel with
  | zero => intro i h _; omega
  | succ n ih =>
    intro i h h99
    by_cases h9 : i = 99
    · subst h9; simp [joinLoopGo]
    · have hlt : i < 99 := by omega
      simp only [joinLoopGo, if_neg h9]
      cases hatt : att i with
      | some w => simp; omega
      | none =>
        have := ih (i + 1) (by omega) (by omega)
        simp only [List.length_cons]
        omega

/-- Shape of the assignment sequence: some failed attempts, optionally
terminated by one successful one. -/
theorem joinLoopGo_shape (att : Nat → Option World) :
    ∀ fuel i, (∃ n, (joinLoopGo att i fuel).assigns = List.replicate n none) ∨
      (∃ n w, (joinLoopGo att i fuel).assigns = List.replicate n none ++ [some w]) := by
  intro fuel
  induction fuel with
  | zero => intro i; exact Or.inl ⟨0, rfl⟩
  | succ n ih =>
    intro i
    by_cases h9 : i = 99
    · exact Or.inl ⟨0, by simp [joinLoopGo, h9]⟩
    · simp only [joinLoopGo, if_neg h9]
      cases hatt : att i with
      | some w => exact Or.inr ⟨0, w, by simp⟩
      | none =>
        rcases ih (i + 1) with ⟨m, hm⟩ | ⟨m, w, hm⟩
        · exact Or.inl ⟨m + 1, by simp [hm, List.replicate_succ]⟩
        · exact Or.inr ⟨m + 1, w, by simp [hm, List.replicate_succ]⟩

/-- One trace line written by `fmt.Fprintf(sr.out_f, "%d C %v\n", ...)`:
the event code, the printed subject, and a ghost field `wsid` holding
the session id of the world the line concerns (for `E`/`X` lines equal
to the subject; for `J`/`L` lines the subject is a session id and
`wsid` is the matching world's session id).  The wall-clock timestamp
is not modelled. -/
structure TraceLine where
  code : Char
  subject : String
  wsid : String
  deriving DecidableEq, Repr

/-- One atomic lock-protected operation of `ScenarioRunner.Run` on the
shared state, plus the final sink close:
* `clearWorld`: lines 107-113 (close + `X` line if a world is held,
  then `sr.world = nil`);
* `joinAssign r`: lines 121-123, one `sr.world, err = JoinWorld(...)`
  under the lock, assigning `r` (`none` when the call errored);
* `openWorld w`: lines 133-139 (close + `X` line if a world is held,
  then `sr.world = OpenWorld(...)`);
* `closeSink`: line 152 (`sr.out_f.Close()`). -/
inductive ExecOp where
  | clearWorld : ExecOp
  | joinAssign : Option World → ExecOp
  | openWorld : World → ExecOp
  | closeSink : ExecOp
  deriving DecidableEq, Repr

/-- Observable executor effects outside the shared state, in program
order: warnings for malformed steps, the dispatch of a step's action,
contact-store reads, `log.Fatalf` aborts, and host registration calls. -/
inductive ExecEvent where
  | warn_missing_time : Nat → ExecEvent
  | warn_bad_time : Nat → String → ExecEvent
  | dispatched : Nat → String → ExecEvent
  | read_call : String → ExecEvent
  | fatal_read : String → ExecEvent
  | append_known_peer : String → String → ExecEvent
  | dial_call : String → ExecEvent
  deriving DecidableEq, Repr

/-- Result of (a suffix of) `ScenarioRunner.Run`: the executor effects
in order, the lock-protected operations in order, and whether the run
was aborted by `log.Fatalf` (which kills the process, so nothing
follows it). -/
structure RunOut where
  events : List ExecEvent
  ops : List ExecOp
  fatal : Bool
  deriving DecidableEq, Repr

/-- The fields of `ScenarioRunner` fixed at construction that the step
loop reads. -/
structure RunConfig where
  contact_dir : String
  time_start : Int
  time_end : Int
  deriving DecidableEq, Repr

/-- The external collaborators of the executor, as deterministic
oracles: `ReadFile name` is the content of a contact-store file
(`none` = read error); `JoinWorld i k` is the result of the `k`-th
`JoinWorld` attempt of the step at loop index `i` (`none` = error);
`OpenWorld i` is the world returned by `OpenWorld` at loop index `i`. -/
structure HostOracle where
  ReadFile : String → Option String
  JoinWorld : Nat → Nat → Option World
  OpenWorld : Nat → World

/-- The action dispatch of `ScenarioRunner.Run` (lines 76-141) for the
step at loop index `i`, after the time checks passed. -/
def stepOut (cfg : RunConfig) (host : HostOracle) (i : Nat) (step : StepDesc) : RunOut :=
  match stepGetD step "do" with
  | "add" =>
    match host.ReadFile (pathJoin cfg.contact_dir (stepGetD step "id" ++ "_rc")) with
    | none =>
      ⟨[ExecEvent.read_call (pathJoin cfg.contact_dir (stepGetD step "id" ++ "_rc")),
        ExecEvent.fatal_read (pathJoin cfg.contact_dir (stepGetD step "id" ++ "_rc"))],
       [], true⟩
    | some rc =>
      match host.ReadFile (pathJoin cfg.contact_dir (stepGetD step "id" ++ "_hs")) with
      | none =>
        ⟨[ExecEvent.read_call (pathJoin cfg.contact_dir (stepGetD step "id" ++ "_rc")),
          ExecEvent.read_call (pathJoin cfg.contact_dir (stepGetD step "id" ++ "_hs")),
          ExecEvent.fatal_read (pathJoin cfg.contact_dir (stepGetD step "id" ++ "_hs"))],
         [], true⟩
      | some hs =>
        ⟨[ExecEvent.read_call (pathJoin cfg.contact_dir (stepGetD step "id" ++ "_rc")),
          ExecEvent.read_call (pathJoin cfg.contact_dir (stepGetD step "id" ++ "_hs")),
          ExecEvent.append_known_peer rc hs],
         [], false⟩
  | "dial" =>
    match host.ReadFile (pathJoin cfg.contact_dir (stepGetD step "id" ++ "_id")) with
    | none =>
      ⟨[ExecEvent.read_call (pathJoin cfg.contact_dir (stepGetD step "id" ++ "_id")),
        ExecEvent.fatal_read (pathJoin cfg.contact_dir (stepGetD step "id" ++ "_id"))],
       [], true⟩
    | some id_hash =>
      ⟨[ExecEvent.read_call (pathJoin cfg.contact_dir (stepGetD step "id" ++ "_id")),
        ExecEvent.dial_call id_hash],
       [], false⟩
  | "join" =>
    match host.ReadFile (pathJoin cfg.contact_dir (stepGetD step "id" ++ "_id")) with
    | none =>
      ⟨[ExecEvent.read_call (pathJoin cfg.contact_dir (stepGetD step "id" ++ "_id")),
        ExecEvent.fatal_read (pathJoin cfg.contact_dir (stepGetD step "id" ++ "_id"))],
       [], true⟩
    | some _ =>
      ⟨[ExecEvent.read_call (pathJoin cfg.contact_dir (stepGetD step "id" ++ "_id"))],
       ExecOp.clearWorld :: ((joinLoop (host.JoinWorld i)).assigns.map ExecOp.joinAssign),
       false⟩
  | "open" => ⟨[], [ExecOp.openWorld (host.OpenWorld i)], false⟩
  | _ => ⟨[], [], false⟩

/-- The step loop of `ScenarioRunner.Run` (lines 49-153) from loop
index `i`: per step, the `time` presence check, `strconv.ParseInt`,
the `target_timestamp >= time_end` break, and the dispatch; when the
loop ends (list exhausted or break) the executor waits until
`time_end` (real time, not modelled) and closes the sink.  A fatal
read kills the process: nothing of the rest is produced, and the sink
is never closed. -/
def runFrom (cfg : RunConfig) (host : HostOracle) : Nat → List StepDesc → RunOut
  | _, [] => ⟨[], [ExecOp.closeSink], false⟩
  | i, step :: rest =>
    match stepGet step "time" with
    | none =>
      let r := runFrom cfg host (i + 1) rest
      ⟨ExecEvent.warn_missing_time i :: r.events, r.ops, r.fatal⟩
    | some ts =>
      match parseInt ts with
      | none =>
        let r := runFrom cfg host (i + 1) rest
        ⟨ExecEvent.warn_bad_time i ts :: r.events, r.ops, r.fatal⟩
      | some t =>
        if cfg.time_end ≤ int64wrap (cfg.time_start + t) then
          ⟨[], [ExecOp.closeSink], false⟩
        else
          let so := stepOut cfg host i step
          if so.fatal then
            ⟨ExecEvent.dispatched i (stepGetD step "do") :: so.events, so.ops, true⟩
          else
            let r := runFrom cfg host (i + 1) rest
            ⟨ExecEvent.dispatched i (stepGetD step "do") :: (so.events ++ r.events),
             so.ops ++ r.ops, r.fatal⟩

/-- `ScenarioRunner.Run`, from the start of the step list. -/
def run (cfg : RunConfig) (host : HostOracle) (steps : List StepDesc) : RunOut :=
  runFrom cfg host 0 steps

/-- One protocol event received on `host.GetEventCh()`, restricted to
what `HandleEvents` reads from it: the associated world (for the five
world-bearing kinds), the peer id and session id where used. -/
inductive HostEvent where
  | worldEnter : World → HostEvent
  | sessionRequest : World → String → String → HostEvent
  | sessionReady : World → String → HostEvent
  | sessionClose : World → String → HostEvent
  | objectAppend : HostEvent
  | objectDelete : HostEvent
  | worldLeave : World → HostEvent
  deriving DecidableEq, Repr

/-- Effect of one `HandleEvents` iteration: the world reference after
the event, the trace lines written, the `ExposeWorldForJoin` calls
(session id of the world passed) and the `AcceptWorldSession` calls
(session id of the world passed, peer id, session id). -/
structure EventEffect where
  world : Option World
  writes : List TraceLine
  exposes : List String
  accepts : List (String × String × String)
  deriving DecidableEq, Repr

/-- The condition `sr.world != nil && sr.world.SessionID() == event.World.SessionID()`. -/
def sessionMatches (w : Option World) (v : World) : Bool :=
  match w with
  | some cw => cw.session_id == v.session_id
  | none => false

/-- The world an event is associated with (`none` for the two object
events, which carry no world the code looks at). -/
def eventWorld (e : HostEvent) : Option World :=
  match e with
  | HostEvent.worldEnter v => some v
  | HostEvent.sessionRequest v _ _ => some v
  | HostEvent.sessionReady v _ => some v
  | HostEvent.sessionClose v _ => some v
  | HostEvent.objectAppend => none
  | HostEvent.objectDelete => none
  | HostEvent.worldLeave v => some v

/-- One iteration of `ScenarioRunner.HandleEvents` (lines 165-211),
performed with `world_mtx` held: the type switch on the event. -/
def handleEvent (w : Option World) (e : HostEvent) : EventEffect :=
  match e with
  | HostEvent.worldEnter v =>
    match w with
    | some cw =>
      if cw.session_id == v.session_id then
        ⟨w, [⟨'E', v.session_id, v.session_id⟩], [cw.session_id], []⟩
      else ⟨w, [], [], []⟩
    | none => ⟨w, [], [], []⟩
  | HostEvent.sessionRequest v peer sid =>
    match w with
    | some cw =>
      if cw.session_id == v.session_id then
        ⟨w, [], [], [(cw.session_id, peer, sid)]⟩
      else ⟨w, [], [], []⟩
    | none => ⟨w, [], [], []⟩
  | HostEvent.sessionReady v sid =>
    match w with
    | some cw =>
      if cw.session_id == v.session_id then
        ⟨w, [⟨'J', sid, v.session_id⟩], [], []⟩
      else ⟨w, [], [], []⟩
    | none => ⟨w, [], [], []⟩
  | HostEvent.sessionClose v sid =>
    match w with
    | some cw =>
      if cw.session_id == v.session_id then
        ⟨w, [⟨'L', sid, v.session_id⟩], [], []⟩
      else ⟨w, [], [], []⟩
    | none => ⟨w, [], [], []⟩
  | HostEvent.objectAppend => ⟨w, [], [], []⟩
  | HostEvent.objectDelete => ⟨w, [], [], []⟩
  | HostEvent.worldLeave v =>
    match w with
    | some cw =>
      if cw.session_id == v.session_id then
        ⟨none, [⟨'X', v.session_id, v.session_id⟩], [], []⟩
      else ⟨w, [], [], []⟩
    | none => ⟨w, [], [], []⟩

/-- The shared state of a run, plus ghost instrumentation:
* `world`, `trace`, `sink_open`: the `sr.world` reference, the ordered
  `Fprintf` calls on `sr.out_f`, and whether the sink is still open;
* `close_count`: number of `sr.out_f.Close()` calls;
* `overwrites`: number of times a `JoinWorld` result was assigned to
  `sr.world` while a world was referenced and not closed in the same
  operation (the code never closes there, so any such assignment with
  both sides non-nil would leak an unreleased world);
* `writes_after_close` / `exec_writes_after_close`: `Fprintf` calls
  made after the sink was closed (all of them / those from `Run`). -/
structure SysState where
  world : Option World
  trace : List TraceLine
  sink_open : Bool
  close_count : Nat
  overwrites : Nat
  writes_after_close : Nat
  exec_writes_after_close : Nat
  deriving DecidableEq, Repr

/-- One `Fprintf(sr.out_f, ...)` call; `from_exec` tells which loop
made it. -/
def sysWrite (from_exec : Bool) (st : SysState) (l : TraceLine) : SysState :=
  { st with
    trace := st.trace ++ [l]
    writes_after_close := st.writes_after_close + (if st.sink_open then 0 else 1)
    exec_writes_after_close :=
      st.exec_writes_after_close + (if from_exec && !st.sink_open then 1 else 0) }

/-- Semantics of one executor operation on the shared state. -/
def applyExecOp (st : SysState) (op : ExecOp) : SysState :=
  match op with
  | ExecOp.clearWorld =>
    match st.world with
    | some w => { sysWrite true st ⟨'X', w.session_id, w.session_id⟩ with world := none }
    | none => { st with world := none }
  | ExecOp.joinAssign r =>
    { st with
      world := r
      overwrites := st.overwrites +
        (match st.world, r with
         | some _, some _ => 1
         | _, _ => 0) }
  | ExecOp.openWorld w =>
    match st.world with
    | some old => { sysWrite true st ⟨'X', old.session_id, old.session_id⟩ with world := some w }
    | none => { st with world := some w }
  | ExecOp.closeSink =>
    { st with sink_open := false, close_count := st.close_count + 1 }

/-- Semantics of one consumer iteration on the shared state. -/
def applyEvent (st : SysState) (e : HostEvent) : SysState :=
  let eff := handleEvent st.world e
  { (eff.writes.foldl (sysWrite false) st) with world := eff.world }

/-- The two-loop system: the executor's remaining lock-protected
operations, the remaining inbound events, and the shared state. -/
structure Sys where
  ops : List ExecOp
  evs : List HostEvent
  st : SysState
  deriving DecidableEq, Repr

/-- One interleaving step: `true` lets the executor perform its next
operation, `false` lets the consumer handle its next event; a finished
loop idles. -/
def sysStep (s : Sys) (b : Bool) : Sys :=
  if b then
    match s.ops with
    | [] => s
    | op :: rest => ⟨rest, s.evs, applyExecOp s.st op⟩
  else
    match s.evs with
    | [] => s
    | e :: rest => ⟨s.ops, rest, applyEvent s.st e⟩

/-- Run the system under a schedule. -/
def sysRun (s : Sys) : List Bool → Sys
  | [] => s
  | b :: sched => sysRun (sysStep s b) sched

/-- The state at engine start: no world referenced, empty trace, sink
just opened. -/
def initState : SysState :=
  ⟨none, [], true, 0, 0, 0, 0⟩

/-- The whole engine on a scenario: the executor operations compiled
from `Run`, an arbitrary inbound event stream, the initial state. -/
def initSys (cfg : RunConfig) (host : HostOracle) (steps : List StepDesc)
    (evs : List HostEvent) : Sys :=
  ⟨(run cfg host steps).ops, evs, initState⟩

/-- Number of `closeSink` operations in a list. -/
def countClose : List ExecOp → Nat
  | [] => 0
  | ExecOp.closeSink :: ops => countClose ops + 1
  | _ :: ops => countClose ops

/-- Number of operations in a list that would store a world whose
session id is `σ` (a successful `JoinWorld` assignment or an
`OpenWorld`). -/
def countAssign (σ : String) : List ExecOp → Nat
  | [] => 0
  | ExecOp.joinAssign (some w) :: ops => countAssign σ ops + (if w.session_id = σ then 1 else 0)
  | ExecOp.openWorld w :: ops => countAssign σ ops + (if w.session_id = σ then 1 else 0)
  | _ :: ops => countAssign σ ops

/-- Number of trace lines with code `X` and subject `σ`. -/
def countX (σ : String) : List TraceLine → Nat
  | [] => 0
  | l :: tr => (if l.code = 'X' ∧ l.subject = σ then 1 else 0) + countX σ tr

/-- `1` iff the referenced world's session id is `σ`. -/
def currentIs (σ : String) (w : Option World) : Nat :=
  match w with
  | some v => if v.session_id = σ then 1 else 0
  | none => 0

/-- Number of places where a world with session id `σ` is accounted
for: still to be stored by the executor, already closed in the trace,
or currently referenced. -/
def liveCount (σ : String) (s : Sys) : Nat :=
  countAssign σ s.ops + countX σ s.st.trace + currentIs σ s.st.world

theorem countAssign_append (σ : String) :
    ∀ l₁ l₂, countAssign σ (l₁ ++ l₂) = countAssign σ l₁ + countAssign σ l₂ := by
  intro l₁
  induction l₁ with
  | nil => intro l₂; simp [countAssign]
  | cons op l ih =>
    intro l₂
    match op with
    | ExecOp.clearWorld => simpa [countAssign] using ih l₂
    | ExecOp.closeSink => simpa [countAssign] using ih l₂
    | ExecOp.joinAssign none => simpa [countAssign] using ih l₂
    | ExecOp.joinAssign (some w) => simp [countAssign, ih l₂]; omega
    | ExecOp.openWorld w => simp [countAssign, ih l₂]; omega

theorem countX_append (σ : String) :
    ∀ l₁ l₂, countX σ (l₁ ++ l₂) = countX σ l₁ + countX σ l₂ := by
  intro l₁
  induction l₁ with
  | nil => intro l₂; simp [countX]
  | cons l tl ih => intro l₂; simp [countX, ih l₂]; omega

theorem countClose_append :
    ∀ l₁ l₂, countClose (l₁ ++ l₂) = countClose l₁ + countClose l₂ := by
  intro l₁
  induction l₁ with
  | nil => intro l₂; simp [countClose]
  | cons op l ih =>
    intro l₂
    match op with
    | ExecOp.closeSink => simp [countClose, ih l₂]; omega
    | ExecOp.clearWorld => simpa [countClose] using ih l₂
    | ExecOp.joinAssign r => simpa [countClose] using ih l₂
    | ExecOp.openWorld w => simpa [countClose] using ih l₂

theorem countClose_eq_zero :
    ∀ l : List ExecOp, ExecOp.closeSink ∉ l → countClose l = 0 := by
  intro l
  induction l with
  | nil => intro _; rfl
  | cons op tl ih =>
    intro h
    have hop : op ≠ ExecOp.closeSink := fun hc => h (by simp [hc])
    have htl : ExecOp.closeSink ∉ tl := fun hc => h (by simp [hc])
    match op, hop with
    | ExecOp.clearWorld, _ => simpa [countClose] using ih htl
    | ExecOp.joinAssign r, _ => simpa [countClose] using ih htl
    | ExecOp.openWorld w, _ => simpa [countClose] using ih htl

theorem foldl_sysWrite_world (f : Bool) :
    ∀ (ls : List TraceLine) (st : SysState), (ls.foldl (sysWrite f) st).world = st.world := by
  intro ls
  induction ls with
  | nil => intro st; rfl
  | cons l tl ih => intro st; simp [List.foldl_cons, ih, sysWrite]

theorem foldl_sysWrite_trace (f : Bool) :
    ∀ (ls : List TraceLine) (st : SysState), (ls.foldl (sysWrite f) st).trace = st.trace ++ ls := by
  intro ls
  induction ls with
  | nil => intro st; simp
  | cons l tl ih => intro st; simp [List.foldl_cons, ih, sysWrite]

theorem foldl_sysWrite_overwrites (f : Bool) :
    ∀ (ls : List TraceLine) (st : SysState), (ls.foldl (sysWrite f) st).overwrites = st.overwrites := by
  intro ls
  induction ls with
  | nil => intro st; rfl
  | cons l tl ih => intro st; simp [List.foldl_cons, ih, sysWrite]

theorem foldl_sysWrite_sink_open (f : Bool) :
    ∀ (ls : List TraceLine) (st : SysState), (ls.foldl (sysWrite f) st).sink_open = st.sink_open := by
  intro ls
  induction ls with
  | nil => intro st; rfl
  | cons l tl ih => intro st; simp [List.foldl_cons, ih, sysWrite]

theorem foldl_sysWrite_close_count (f : Bool) :
    ∀ (ls : List TraceLine) (st : SysState), (ls.foldl (sysWrite f) st).close_count = st.close_count := by
  intro ls
  induction ls with
  | nil => intro st; rfl
  | cons l tl ih => intro st; simp [List.foldl_cons, ih, sysWrite]

theorem foldl_sysWrite_execwac :
    ∀ (ls : List TraceLine) (st : SysState), (ls.foldl (sysWrite false) st).exec_writes_after_close
      = st.exec_writes_after_close := by
  intro ls
  induction ls with
  | nil => intro st; rfl
  | cons l tl ih => intro st; simp [List.foldl_cons, ih, sysWrite]

theorem applyEvent_world (st : SysState) (e : HostEvent) :
    (applyEvent st e).world = (handleEvent st.world e).world := by
  simp [applyEvent]

theorem applyEvent_trace (st : SysState) (e : HostEvent) :
    (applyEvent st e).trace = st.trace ++ (handleEvent st.world e).writes := by
  simp [applyEvent, foldl_sysWrite_trace]

theorem applyEvent_overwrites (st : SysState) (e : HostEvent) :
    (applyEvent st e).overwrites = st.overwrites := by
  simp [applyEvent, foldl_sysWrite_overwrites]

theorem applyEvent_sink_open (st : SysState) (e : HostEvent) :
    (applyEvent st e).sink_open = st.sink_open := by
  simp [applyEvent, foldl_sysWrite_sink_open]

theorem applyEvent_close_count (st : SysState) (e : HostEvent) :
    (applyEvent st e).close_count = st.close_count := by
  simp [applyEvent, foldl_sysWrite_close_count]

theorem applyEvent_execwac (st : SysState) (e : HostEvent) :
    (applyEvent st e).exec_writes_after_close = st.exec_writes_after_close := by
  simp [applyEvent, foldl_sysWrite_execwac]

theorem sysRun_append (l₁ : List Bool) :
    ∀ l₂ s, sysRun s (l₁ ++ l₂) = sysRun (sysRun s l₁) l₂ := by
  induction l₁ with
  | nil => intro l₂ s; rfl
  | cons b l ih => intro l₂ s; simp [sysRun, ih]

theorem sysStep_trace_extends (s : Sys) (b : Bool) :
    ∃ t, (sysStep s b).st.trace = s.st.trace ++ t := by
  by_cases hb : b
  · subst hb
    match hops : s.ops with
    | [] => exact ⟨[], by simp [sysStep, hops]⟩
    | op :: rest =>
      simp only [sysStep, hops]
      match op with
      | ExecOp.clearWorld =>
        match hw : s.st.world with
        | some w =>
          exact ⟨[⟨'X', w.session_id, w.session_id⟩], by simp [applyExecOp, hw, sysWrite]⟩
        | none => exact ⟨[], by simp [applyExecOp, hw]⟩
      | ExecOp.joinAssign r => exact ⟨[], by simp [applyExecOp]⟩
      | ExecOp.openWorld w =>
        match hw : s.st.world with
        | some old =>
          exact ⟨[⟨'X', old.session_id, old.session_id⟩], by simp [applyExecOp, hw, sysWrite]⟩
        | none => exact ⟨[], by simp [applyExecOp, hw]⟩
      | ExecOp.closeSink => exact ⟨[], by simp [applyExecOp]⟩
  · simp only [Bool.not_eq_true] at hb
    subst hb
    match hevs : s.evs with
    | [] => exact ⟨[], by simp [sysStep, hevs]⟩
    | e :: rest =>
      exact ⟨(handleEvent s.st.world e).writes, by simp [sysStep, hevs, applyEvent_trace]⟩

theorem sysRun_trace_extends :
    ∀ sched s, ∃ t, (sysRun s sched).st.trace = s.st.trace ++ t := by
  intro sched
  induction sched with
  | nil => intro s; exact ⟨[], by simp [sysRun]⟩
  | cons b l ih =>
    intro s
    obtain ⟨t₁, h₁⟩ := sysStep_trace_extends s b
    obtain ⟨t₂, h₂⟩ := ih (sysStep s b)
    exact ⟨t₁ ++ t₂, by simp [sysRun, h₂, h₁]⟩

/-- What one `HandleEvents` iteration can do to the shared state: it
never installs a world (it keeps or clears the reference), it writes
only about the currently referenced world, and it writes an `X` line
only when it simultaneously clears the reference. -/
theorem handleEvent_inv (w : Option World) (e : HostEvent) :
    ((handleEvent w e).world = w ∨ (handleEvent w e).world = none)
    ∧ (∀ l, l ∈ (handleEvent w e).writes → ∃ cw, w = some cw ∧ l.wsid = cw.session_id)
    ∧ (∀ σ, countX σ (handleEvent w e).writes + currentIs σ (handleEvent w e).world
        ≤ currentIs σ w) := by
  cases e with
  | worldEnter v =>
    cases w with
    | none => exact ⟨Or.inl rfl, by simp [handleEvent], by simp [handleEvent, countX]⟩
    | some cw =>
      by_cases h : cw.session_id = v.session_id
      · refine ⟨Or.inl (by simp [handleEvent, h]), ?_, ?_⟩
        · intro l hl
          simp [handleEvent, h] at hl
          exact ⟨cw, rfl, by simp [hl, h]⟩
        · intro σ
          simp [handleEvent, h, countX]
      · exact ⟨Or.inl (by simp [handleEvent, h]), by simp [handleEvent, h],
          by simp [handleEvent, h, countX]⟩
  | sessionRequest v peer sid =>
    cases w with
    | none => exact ⟨Or.inl rfl, by simp [handleEvent], by simp [handleEvent, countX]⟩
    | some cw =>
      by_cases h : cw.session_id = v.session_id
      · exact ⟨Or.inl (by simp [handleEvent, h]), by simp [handleEvent, h],
          by simp [handleEvent, h, countX]⟩
      · exact ⟨Or.inl (by simp [handleEvent, h]), by simp [handleEvent, h],
          by simp [handleEvent, h, countX]⟩
  | sessionReady v sid =>
    cases w with
    | none => exact ⟨Or.inl rfl, by simp [handleEvent], by simp [handleEvent, countX]⟩
    | some cw =>
      by_cases h : cw.session_id = v.session_id
      · refine ⟨Or.inl (by simp [handleEvent, h]), ?_, ?_⟩
        · intro l hl
          simp [handleEvent, h] at hl
          exact ⟨cw, rfl, by simp [hl, h]⟩
        · intro σ
          simp [handleEvent, h, countX]
      · exact ⟨Or.inl (by simp [handleEvent, h]), by simp [handleEvent, h],
          by simp [handleEvent, h, countX]⟩
  | sessionClose v sid =>
    cases w with
    | none => exact ⟨Or.inl rfl, by simp [handleEvent], by simp [handleEvent, countX]⟩
    | some cw =>
      by_cases h : cw.session_id = v.session_id
      · refine ⟨Or.inl (by simp [handleEvent, h]), ?_, ?_⟩
        · intro l hl
          simp [handleEvent, h] at hl
          exact ⟨cw, rfl, by simp [hl, h]⟩
        · intro σ
          simp [handleEvent, h, countX]
      · exact ⟨Or.inl (by simp [handleEvent, h]), by simp [handleEvent, h],
          by simp [handleEvent, h, countX]⟩
  | objectAppend =>
    exact ⟨Or.inl rfl, by simp [handleEvent], by simp [handleEvent, countX]⟩
  | objectDelete =>
    exact ⟨Or.inl rfl, by simp [handleEvent], by simp [handleEvent, countX]⟩
  | worldLeave v =>
    cases w with
    | none => exact ⟨Or.inl rfl, by simp [handleEvent], by simp [handleEvent, countX]⟩
    | some cw =>
      by_cases h : cw.session_id = v.session_id
      · refine ⟨Or.inr (by simp [handleEvent, h]), ?_, ?_⟩
        · intro l hl
          simp [handleEvent, h] at hl
          exact ⟨cw, rfl, by simp [hl, h]⟩
        · intro σ
          by_cases hσ : v.session_id = σ <;>
            simp [handleEvent, h, countX, currentIs, hσ]
      · exact ⟨Or.inl (by simp [handleEvent, h]), by simp [handleEvent, h],
          by simp [handleEvent, h, countX]⟩

theorem currentIs_some (σ : String) (v : World) :
    currentIs σ (some v) = if v.session_id = σ then 1 else 0 := rfl

theorem currentIs_self (v : World) : currentIs v.session_id (some v) = 1 := by
  simp [currentIs]

theorem countX_X_line (σ τ ω : String) :
    countX σ [⟨'X', τ, ω⟩] = if τ = σ then 1 else 0 := by
  simp [countX]

/-- The session-id accounting invariant of a system state: any session
id is accounted at most once among pending assignments, written `X`
lines and the current reference, and a trace line about a world
precedes any pending assignment of a world with the same session id. -/
structure SysInv (s : Sys) : Prop where
  live : ∀ σ, liveCount σ s ≤ 1
  fresh : ∀ l, l ∈ s.st.trace → countAssign l.wsid s.ops = 0

theorem sysInv_step {s : Sys} (h : SysInv s) (b : Bool) : SysInv (sysStep s b) := by
  by_cases hb : b
  · subst hb
    match hops : s.ops with
    | [] =>
      have hs : sysStep s true = s := by simp [sysStep, hops]
      rwa [hs]
    | op :: rest =>
      match op with
      | ExecOp.clearWorld =>
        have h1 : (sysStep s true).ops = rest := by simp [sysStep, hops]
        match hw : s.st.world with
        | none =>
          have h2 : (sysStep s true).st.trace = s.st.trace := by
            simp [sysStep, hops, applyExecOp, hw]
          have h3 : (sysStep s true).st.world = none := by
            simp [sysStep, hops, applyExecOp, hw]
          constructor
          · intro σ
            have hl := h.live σ
            simp only [liveCount, h1, h2, h3, hops, countAssign, hw, currentIs] at hl ⊢
            omega
          · intro l hl
            rw [h2] at hl
            have hf := h.fresh l hl
            rw [h1]
            simpa [hops, countAssign] using hf
        | some old =>
          have h2 : (sysStep s true).st.trace
              = s.st.trace ++ [⟨'X', old.session_id, old.session_id⟩] := by
            simp [sysStep, hops, applyExecOp, hw, sysWrite]
          have h3 : (sysStep s true).st.world = none := by
            simp [sysStep, hops, applyExecOp, hw, sysWrite]
          have hfreshX : countAssign old.session_id rest = 0 := by
            have hl := h.live old.session_id
            simp only [liveCount, hops, countAssign, hw, currentIs_self] at hl
            omega
          constructor
          · intro σ
            have hl := h.live σ
            simp only [liveCount, h1, h2, h3, hops, countAssign, hw, currentIs,
              countX_append, countX] at hl ⊢
            by_cases hσ : old.session_id = σ <;> simp [hσ] at hl ⊢ <;> omega
          · intro l hl
            rw [h2] at hl
            rw [h1]
            rcases List.mem_append.mp hl with hl | hl
            · have hf := h.fresh l hl
              simpa [hops, countAssign] using hf
            · rcases List.mem_singleton.mp hl with rfl
              exact hfreshX
      | ExecOp.joinAssign r =>
        have h1 : (sysStep s true).ops = rest := by simp [sysStep, hops]
        have h2 : (sysStep s true).st.trace = s.st.trace := by
          simp [sysStep, hops, applyExecOp]
        have h3 : (sysStep s true).st.world = r := by
          simp [sysStep, hops, applyExecOp]
        constructor
        · intro σ
          have hl := h.live σ
          simp only [liveCount, h1, h2, h3, hops] at hl ⊢
          match r with
          | none =>
            simp only [countAssign, currentIs] at hl ⊢
            cases hww : s.st.world with
            | none => simp [hww, currentIs] at hl; omega
            | some cw => simp [hww, currentIs] at hl; split at hl <;> omega
          | some w =>
            simp only [countAssign, currentIs] at hl ⊢
            cases hww : s.st.world with
            | none =>
              simp [hww, currentIs] at hl
              by_cases hσ : w.session_id = σ <;> simp [hσ] at hl ⊢ <;> omega
            | some cw =>
              simp [hww, currentIs] at hl
              by_cases hσ : w.session_id = σ <;> simp [hσ] at hl ⊢ <;>
                split at hl <;> omega
        · intro l hl
          rw [h2] at hl
          have hf := h.fresh l hl
          rw [h1]
          simp only [hops] at hf
          match r with
          | none => simpa [countAssign] using hf
          | some w =>
            simp only [countAssign] at hf
            omega
      | ExecOp.openWorld w =>
        have h1 : (sysStep s true).ops = rest := by simp [sysStep, hops]
        match hw : s.st.world with
        | none =>
          have h2 : (sysStep s true).st.trace = s.st.trace := by
            simp [sysStep, hops, applyExecOp, hw]
          have h3 : (sysStep s true).st.world = some w := by
            simp [sysStep, hops, applyExecOp, hw]
          constructor
          · intro σ
            have hl := h.live σ
            simp only [liveCount, h1, h2, h3, hops, countAssign, hw, currentIs] at hl ⊢
            by_cases hσ : w.session_id = σ <;> simp [hσ] at hl ⊢ <;> omega
          · intro l hl
            rw [h2] at hl
            have hf := h.fresh l hl
            rw [h1]
            simp only [hops, countAssign] at hf
            omega
        | some old =>
          have h2 : (sysStep s true).st.trace
              = s.st.trace ++ [⟨'X', old.session_id, old.session_id⟩] := by
            simp [sysStep, hops, applyExecOp, hw, sysWrite]
          have h3 : (sysStep s true).st.world = some w := by
            simp [sysStep, hops, applyExecOp, hw, sysWrite]
          constructor
          · intro σ
            have hl := h.live σ
            simp only [liveCount, h1, h2, h3, hops, countAssign, hw, currentIs_some,
              countX_append, countX_X_line] at hl ⊢
            omega
          · intro l hl
            rw [h2] at hl
            rw [h1]
            rcases List.mem_append.mp hl with hl | hl
            · have hf := h.fresh l hl
              simp only [hops, countAssign] at hf
              omega
            · rcases List.mem_singleton.mp hl with rfl
              show countAssign old.session_id rest = 0
              have hl2 := h.live old.session_id
              simp only [liveCount, hops, countAssign, hw, currentIs_self] at hl2
              omega
      | ExecOp.closeSink =>
        have h1 : (sysStep s true).ops = rest := by simp [sysStep, hops]
        have h2 : (sysStep s true).st.trace = s.st.trace := by
          simp [sysStep, hops, applyExecOp]
        have h3 : (sysStep s true).st.world = s.st.world := by
          simp [sysStep, hops, applyExecOp]
        constructor
        · intro σ
          have hl := h.live σ
          simp only [liveCount, h1, h2, h3, hops, countAssign] at hl ⊢
          omega
        · intro l hl
          rw [h2] at hl
          have hf := h.fresh l hl
          rw [h1]
          simpa [hops, countAssign] using hf
  · simp only [Bool.not_eq_true] at hb
    subst hb
    match hevs : s.evs with
    | [] =>
      have hs : sysStep s false = s := by simp [sysStep, hevs]
      rwa [hs]
    | e :: rest =>
      have h1 : (sysStep s false).ops = s.ops := by simp [sysStep, hevs]
      have h2 : (sysStep s false).st.trace
          = s.st.trace ++ (handleEvent s.st.world e).writes := by
        simp [sysStep, hevs, applyEvent_trace]
      have h3 : (sysStep s false).st.world = (handleEvent s.st.world e).world := by
        simp [sysStep, hevs, applyEvent_world]
      obtain ⟨hwld, hwr, hcnt⟩ := handleEvent_inv s.st.world e
      constructor
      · intro σ
        have hl := h.live σ
        have hc := hcnt σ
        simp only [liveCount, h1, h2, h3, countX_append] at hl ⊢
        omega
      · intro l hl
        rw [h2] at hl
        rw [h1]
        rcases List.mem_append.mp hl with hl | hl
        · exact h.fresh l hl
        · obtain ⟨cw, hcw, hwsid⟩ := hwr l hl
          have hlcw := h.live cw.session_id
          simp only [liveCount, hcw, currentIs_self] at hlcw
          rw [hwsid]
          omega

theorem sysInv_run {s : Sys} (h : SysInv s) : ∀ sched, SysInv (sysRun s sched) := by
  intro sched
  induction sched generalizing s with
  | nil => simpa [sysRun] using h
  | cons b l ih => simpa [sysRun] using ih (sysInv_step h b)

theorem sysInv_init (ops : List ExecOp) (evs : List HostEvent)
    (H : ∀ σ, countAssign σ ops ≤ 1) : SysInv ⟨ops, evs, initState⟩ := by
  constructor
  · intro σ
    simpa [liveCount, initState, countX, currentIs] using H σ
  · intro l hl
    simp [initState] at hl

/-- Checker for the executor operation stream: the flag records whether
a world may be referenced purely by the executor's own assignments;
`none` flags a `JoinWorld` assignment that could overwrite a referenced
world without closing it.  `Run` never emits such an assignment. -/
def assignFlag : Bool → List ExecOp → Option Bool
  | b, [] => some b
  | _, ExecOp.clearWorld :: ops => assignFlag false ops
  | b, ExecOp.joinAssign r :: ops =>
    if b then none else assignFlag r.isSome ops
  | _, ExecOp.openWorld _ :: ops => assignFlag true ops
  | b, ExecOp.closeSink :: ops => assignFlag b ops

theorem assignFlag_append :
    ∀ (l₁ l₂ : List ExecOp) (b : Bool),
      assignFlag b (l₁ ++ l₂) = (assignFlag b l₁).bind (fun c => assignFlag c l₂) := by
  intro l₁
  induction l₁ with
  | nil => intro l₂ b; simp [assignFlag]
  | cons op l ih =>
    intro l₂ b
    match op with
    | ExecOp.clearWorld => simp [assignFlag, ih]
    | ExecOp.joinAssign r =>
      by_cases hb : b <;> simp [assignFlag, hb, ih]
    | ExecOp.openWorld w => simp [assignFlag, ih]
    | ExecOp.closeSink => simp [assignFlag, ih]

theorem assignFlag_replicate_none :
    ∀ (n : Nat) (l : List ExecOp),
      assignFlag false ((List.replicate n (none : Option World)).map ExecOp.joinAssign ++ l)
        = assignFlag false l := by
  intro n
  induction n with
  | zero => intro l; simp
  | succ m ih =>
    intro l
    rw [List.replicate_succ, List.map_cons, List.cons_append]
    have hstep : assignFlag false (ExecOp.joinAssign none ::
        ((List.replicate m (none : Option World)).map ExecOp.joinAssign ++ l))
        = assignFlag false
            ((List.replicate m (none : Option World)).map ExecOp.joinAssign ++ l) := by
      simp [assignFlag]
    rw [hstep, ih]

theorem assignFlag_stepOut (cfg : RunConfig) (host : HostOracle) (i : Nat)
    (step : StepDesc) :
    ∀ b, ∃ c, assignFlag b (stepOut cfg host i step).ops = some c := by
  intro b
  unfold stepOut
  split
  · split
    · exact ⟨b, rfl⟩
    · split
      · exact ⟨b, rfl⟩
      · exact ⟨b, rfl⟩
  · split
    · exact ⟨b, rfl⟩
    · exact ⟨b, rfl⟩
  · split
    · exact ⟨b, rfl⟩
    · show ∃ c, assignFlag b (ExecOp.clearWorld ::
        ((joinLoop (host.JoinWorld i)).assigns.map ExecOp.joinAssign)) = some c
      rcases joinLoopGo_shape (host.JoinWorld i) 100 0 with ⟨n, hn⟩ | ⟨n, w, hn⟩
      · refine ⟨false, ?_⟩
        show assignFlag false ((joinLoop (host.JoinWorld i)).assigns.map ExecOp.joinAssign)
          = some false
        rw [joinLoop, hn]
        have := assignFlag_replicate_none n ([] : List ExecOp)
        simpa using this
      · refine ⟨true, ?_⟩
        show assignFlag false ((joinLoop (host.JoinWorld i)).assigns.map ExecOp.joinAssign)
          = some true
        rw [joinLoop, hn]
        rw [List.map_append]
        rw [assignFlag_replicate_none n]
        simp [assignFlag]
  · exact ⟨true, rfl⟩
  · exact ⟨b, rfl⟩

theorem assignFlag_runFrom (cfg : RunConfig) (host : HostOracle) :
    ∀ (steps : List StepDesc) (i : Nat) (b : Bool),
      ∃ c, assignFlag b (runFrom cfg host i steps).ops = some c := by
  intro steps
  induction steps with
  | nil => intro i b; exact ⟨b, rfl⟩
  | cons step rest ih =>
    intro i b
    cases hts : stepGet step "time" with
    | none =>
      simp only [runFrom, hts]
      exact ih (i + 1) b
    | some ts =>
      cases hpi : parseInt ts with
      | none =>
        simp only [runFrom, hts, hpi]
        exact ih (i + 1) b
      | some t =>
        by_cases hbrk : cfg.time_end ≤ int64wrap (cfg.time_start + t)
        · simp only [runFrom, hts, hpi, if_pos hbrk]
          exact ⟨b, rfl⟩
        · cases hf : (stepOut cfg host i step).fatal with
          | true =>
            simp only [runFrom, hts, hpi, if_neg hbrk, hf, if_true]
            exact assignFlag_stepOut cfg host i step b
          | false =>
            simp only [runFrom, hts, hpi, if_neg hbrk, hf, Bool.false_eq_true,
              if_false]
            obtain ⟨c, hc⟩ := assignFlag_stepOut cfg host i step b
            obtain ⟨d, hd⟩ := ih (i + 1) c
            exact ⟨d, by rw [assignFlag_append, hc]; simpa using hd⟩

/-- Semantic consequence of the checker: under any schedule, a stream
accepted by `assignFlag` never assigns a `JoinWorld` result over a
referenced world. -/
theorem sysRun_overwrites (sched : List Bool) :
    ∀ (s : Sys) (b : Bool), assignFlag b s.ops ≠ none →
      (s.st.world.isSome = true → b = true) →
      (sysRun s sched).st.overwrites = s.st.overwrites := by
  induction sched with
  | nil => intro s b _ _; rfl
  | cons x l ih =>
    intro s b hflag hworld
    by_cases hx : x
    · subst hx
      match hops : s.ops with
      | [] =>
        have hs : sysStep s true = s := by simp [sysStep, hops]
        rw [sysRun, hs]
        exact ih s b (by rwa [hops] at hflag ⊢) hworld
      | op :: rest =>
        have hstep : sysStep s true = ⟨rest, s.evs, applyExecOp s.st op⟩ := by
          simp [sysStep, hops]
        rw [sysRun, hstep]
        match op with
        | ExecOp.clearWorld =>
          have hflag' : assignFlag false rest ≠ none := by
            rwa [hops, assignFlag] at hflag
          have hov : (applyExecOp s.st ExecOp.clearWorld).overwrites = s.st.overwrites := by
            cases hw : s.st.world <;> simp [applyExecOp, hw, sysWrite]
          have hw' : (applyExecOp s.st ExecOp.clearWorld).world = none := by
            cases hw : s.st.world <;> simp [applyExecOp, hw, sysWrite]
          rw [ih ⟨rest, s.evs, applyExecOp s.st ExecOp.clearWorld⟩ false hflag'
            (by simp [hw'])]
          exact hov
        | ExecOp.joinAssign r =>
          have hb : b = false := by
            by_contra hbt
            simp only [Bool.not_eq_false] at hbt
            rw [hops, assignFlag, if_pos hbt] at hflag
            exact hflag rfl
          subst hb
          have hwnone : s.st.world = none := by
            cases hw : s.st.world with
            | none => rfl
            | some cw => exact absurd (hworld (by simp [hw])) (by simp)
          have hflag' : assignFlag r.isSome rest ≠ none := by
            rw [hops, assignFlag] at hflag
            simpa using hflag
          have hov : (applyExecOp s.st (ExecOp.joinAssign r)).overwrites
              = s.st.overwrites := by
            simp [applyExecOp, hwnone]
          have hw' : (applyExecOp s.st (ExecOp.joinAssign r)).world = r := by
            simp [applyExecOp]
          rw [ih ⟨rest, s.evs, applyExecOp s.st (ExecOp.joinAssign r)⟩ r.isSome hflag'
            (by simp [hw'])]
          exact hov
        | ExecOp.openWorld w =>
          have hflag' : assignFlag true rest ≠ none := by
            rwa [hops, assignFlag] at hflag
          have hov : (applyExecOp s.st (ExecOp.openWorld w)).overwrites
              = s.st.overwrites := by
            cases hw : s.st.world <;> simp [applyExecOp, hw, sysWrite]
          rw [ih ⟨rest, s.evs, applyExecOp s.st (ExecOp.openWorld w)⟩ true hflag'
            (fun _ => rfl)]
          exact hov
        | ExecOp.closeSink =>
          have hflag' : assignFlag b rest ≠ none := by
            rwa [hops, assignFlag] at hflag
          have hw' : (applyExecOp s.st ExecOp.closeSink).world = s.st.world := by
            simp [applyExecOp]
          rw [ih ⟨rest, s.evs, applyExecOp s.st ExecOp.closeSink⟩ b hflag'
            (by rw [hw']; exact hworld)]
          simp [applyExecOp]
    · simp only [Bool.not_eq_true] at hx
      subst hx
      match hevs : s.evs with
      | [] =>
        have hs : sysStep s false = s := by simp [sysStep, hevs]
        rw [sysRun, hs]
        exact ih s b hflag hworld
      | e :: rest =>
        have hstep : sysStep s false = ⟨s.ops, rest, applyEvent s.st e⟩ := by
          simp [sysStep, hevs]
        rw [sysRun, hstep]
        obtain ⟨hwld, -, -⟩ := handleEvent_inv s.st.world e
        have hw' : (applyEvent s.st e).world = s.st.world
            ∨ (applyEvent s.st e).world = none := by
          rw [applyEvent_world]; exact hwld
        have hworld' : (applyEvent s.st e).world.isSome = true → b = true := by
          intro hsome
          rcases hw' with hw' | hw'
          · exact hworld (by rwa [hw'] at hsome)
          · rw [hw'] at hsome; simp at hsome
        rw [ih ⟨s.ops, rest, applyEvent s.st e⟩ b hflag hworld']
        exact applyEvent_overwrites s.st e

theorem stepOut_ops_no_closeSink (cfg : RunConfig) (host : HostOracle) (i : Nat)
    (step : StepDesc) : ExecOp.closeSink ∉ (stepOut cfg host i step).ops := by
  unfold stepOut
  split
  · split
    · simp
    · split <;> simp
  · split <;> simp
  · split
    · simp
    · simp [List.mem_map]
  · simp
  · simp

theorem stepOut_events_no_dispatched (cfg : RunConfig) (host : HostOracle) (i : Nat)
    (step : StepDesc) :
    ∀ j a, ExecEvent.dispatched j a ∉ (stepOut cfg host i step).events := by
  intro j a
  unfold stepOut
  split
  · split
    · simp
    · split <;> simp
  · split <;> simp
  · split <;> simp
  · simp
  · simp

/-- When `Run` completes (no fatal read), the sink close is the last
operation and the only one; a fatal read kills the process before any
close. -/
theorem runFrom_ops_closeSink (cfg : RunConfig) (host : HostOracle) :
    ∀ (steps : List StepDesc) (i : Nat),
      ((runFrom cfg host i steps).fatal = false →
        ∃ l, (runFrom cfg host i steps).ops = l ++ [ExecOp.closeSink]
          ∧ ExecOp.closeSink ∉ l)
      ∧ ((runFrom cfg host i steps).fatal = true →
        ExecOp.closeSink ∉ (runFrom cfg host i steps).ops) := by
  intro steps
  induction steps with
  | nil =>
    intro i
    constructor
    · intro _
      exact ⟨[], by simp [runFrom], by simp⟩
    · intro h
      simp [runFrom] at h
  | cons step rest ih =>
    intro i
    cases hts : stepGet step "time" with
    | none =>
      simp only [runFrom, hts]
      exact ih (i + 1)
    | some ts =>
      cases hpi : parseInt ts with
      | none =>
        simp only [runFrom, hts, hpi]
        exact ih (i + 1)
      | some t =>
        by_cases hbrk : cfg.time_end ≤ int64wrap (cfg.time_start + t)
        · simp only [runFrom, hts, hpi, if_pos hbrk]
          constructor
          · intro _
            exact ⟨[], by simp, by simp⟩
          · intro h
            simp at h
        · cases hf : (stepOut cfg host i step).fatal with
          | true =>
            simp only [runFrom, hts, hpi, if_neg hbrk, hf, if_true]
            constructor
            · intro h
              simp at h
            · intro _
              exact stepOut_ops_no_closeSink cfg host i step
          | false =>
            simp only [runFrom, hts, hpi, if_neg hbrk, hf, Bool.false_eq_true, if_false]
            constructor
            · intro h
              obtain ⟨l, hl, hnl⟩ := (ih (i + 1)).1 h
              refine ⟨(stepOut cfg host i step).ops ++ l, by simp [hl], ?_⟩
              intro hmem
              rcases List.mem_append.mp hmem with hmem | hmem
              · exact stepOut_ops_no_closeSink cfg host i step hmem
              · exact hnl hmem
            · intro h
              have hr := (ih (i + 1)).2 h
              intro hmem
              rcases List.mem_append.mp hmem with hmem | hmem
              · exact stepOut_ops_no_closeSink cfg host i step hmem
              · exact hr hmem

theorem applyExecOp_nonclose (st : SysState) (op : ExecOp)
    (hop : op ≠ ExecOp.closeSink) :
    (applyExecOp st op).sink_open = st.sink_open
    ∧ (applyExecOp st op).close_count = st.close_count
    ∧ (st.sink_open = true →
        (applyExecOp st op).exec_writes_after_close = st.exec_writes_after_close) := by
  match op with
  | ExecOp.clearWorld =>
    cases hw : st.world with
    | none => exact ⟨by simp [applyExecOp, hw], by simp [applyExecOp, hw],
        fun _ => by simp [applyExecOp, hw]⟩
    | some w =>
      refine ⟨by simp [applyExecOp, hw, sysWrite], by simp [applyExecOp, hw, sysWrite], ?_⟩
      intro h
      simp [applyExecOp, hw, sysWrite, h]
  | ExecOp.joinAssign r => exact ⟨by simp [applyExecOp], by simp [applyExecOp],
      fun _ => by simp [applyExecOp]⟩
  | ExecOp.openWorld w =>
    cases hw : st.world with
    | none => exact ⟨by simp [applyExecOp, hw], by simp [applyExecOp, hw],
        fun _ => by simp [applyExecOp, hw]⟩
    | some old =>
      refine ⟨by simp [applyExecOp, hw, sysWrite], by simp [applyExecOp, hw, sysWrite], ?_⟩
      intro h
      simp [applyExecOp, hw, sysWrite, h]
  | ExecOp.closeSink => exact absurd rfl hop

/-- Runtime invariant for the sink: the executor writes only while the
sink is open, and the close is performed at most (and, scheduled to
completion, exactly) once. -/
theorem sysRun_close_inv (sched : List Bool) :
    ∀ s : Sys,
      s.st.exec_writes_after_close = 0 →
      s.st.close_count + countClose s.ops = 1 →
      ((s.st.sink_open = true
          ∧ ∃ l, s.ops = l ++ [ExecOp.closeSink] ∧ ExecOp.closeSink ∉ l)
        ∨ s.ops = []) →
      (sysRun s sched).st.exec_writes_after_close = 0
      ∧ (sysRun s sched).st.close_count + countClose (sysRun s sched).ops = 1 := by
  induction sched with
  | nil => intro s h1 h2 _; exact ⟨h1, h2⟩
  | cons x l ih =>
    intro s h1 h2 h3
    by_cases hx : x
    · subst hx
      rcases h3 with ⟨hopen, l₀, hl₀, hnl₀⟩ | hemp
      · match hl : l₀, hl₀ with
        | [], hl₀ =>
          have hops : s.ops = [ExecOp.closeSink] := by simpa using hl₀
          have hstep : sysStep s true = ⟨[], s.evs, applyExecOp s.st ExecOp.closeSink⟩ := by
            simp [sysStep, hops]
          rw [sysRun, hstep]
          refine ih _ (by simp [applyExecOp, h1]) ?_ (Or.inr rfl)
          have : countClose s.ops = 1 := by simp [hops, countClose]
          simp only [applyExecOp, countClose]
          omega
        | op :: l₁, hl₀ =>
          have hop : op ≠ ExecOp.closeSink := by
            intro hc
            exact hnl₀ (by simp [hc])
          have hops : s.ops = op :: (l₁ ++ [ExecOp.closeSink]) := by simpa using hl₀
          have hstep : sysStep s true
              = ⟨l₁ ++ [ExecOp.closeSink], s.evs, applyExecOp s.st op⟩ := by
            simp [sysStep, hops]
          rw [sysRun, hstep]
          obtain ⟨hsink, hcc, hexec⟩ := applyExecOp_nonclose s.st op hop
          have hcnt : countClose s.ops = countClose (l₁ ++ [ExecOp.closeSink]) := by
            rw [hops]
            match op, hop with
            | ExecOp.clearWorld, _ => rfl
            | ExecOp.joinAssign r, _ => rfl
            | ExecOp.openWorld w, _ => rfl
          refine ih _ (by rw [hexec hopen]; exact h1) ?_
            (Or.inl ⟨by rw [hsink]; exact hopen, l₁, rfl,
              fun hmem => hnl₀ (by simp [hmem])⟩)
          show (applyExecOp s.st op).close_count + countClose (l₁ ++ [ExecOp.closeSink]) = 1
          rw [hcc, ← hcnt]
          exact h2
      · have hstep : sysStep s true = s := by simp [sysStep, hemp]
        rw [sysRun, hstep]
        exact ih s h1 h2 (Or.inr hemp)
    · simp only [Bool.not_eq_true] at hx
      subst hx
      match hevs : s.evs with
      | [] =>
        have hstep : sysStep s false = s := by simp [sysStep, hevs]
        rw [sysRun, hstep]
        exact ih s h1 h2 h3
      | e :: rest =>
        have hstep : sysStep s false = ⟨s.ops, rest, applyEvent s.st e⟩ := by
          simp [sysStep, hevs]
        rw [sysRun, hstep]
        refine ih _ (by rw [applyEvent_execwac]; exact h1)
          (by rw [applyEvent_close_count]; exact h2) ?_
        rcases h3 with ⟨hopen, l₀, hl₀, hnl₀⟩ | hemp
        · exact Or.inl ⟨by rw [applyEvent_sink_open]; exact hopen, l₀, hl₀, hnl₀⟩
        · exact Or.inr hemp

/-- No step at or after the first step whose target instant reaches
`time_end` is ever dispatched. -/
theorem runFrom_no_dispatch_ge (cfg : RunConfig) (host : HostOracle) :
    ∀ (steps : List StepDesc) (i j : Nat) (step : StepDesc) (ts : String) (t : Int)
      (k : Nat) (a : String),
      steps.get? j = some step →
      stepGet step "time" = some ts →
      parseInt ts = some t →
      cfg.time_end ≤ int64wrap (cfg.time_start + t) →
      i + j ≤ k →
      ExecEvent.dispatched k a ∉ (runFrom cfg host i steps).events := by
  intro steps
  induction steps with
  | nil =>
    intro i j step ts t k a hj
    simp at hj
  | cons s rest ih =>
    intro i j step ts t k a hj hts hpi hbrk hk
    cases j with
    | zero =>
      have hs : s = step := by simpa using hj
      subst hs
      simp only [runFrom, hts, hpi, if_pos hbrk]
      simp
    | succ j' =>
      have hj' : rest.get? j' = some step := by simpa using hj
      have hk' : (i + 1) + j' ≤ k := by omega
      cases hts0 : stepGet s "time" with
      | none =>
        simp only [runFrom, hts0]
        intro hmem
        simp only [List.mem_cons] at hmem
        rcases hmem with hmem | hmem
        · cases hmem
        · exact ih (i + 1) j' step ts t k a hj' hts hpi hbrk hk' hmem
      | some ts0 =>
        cases hpi0 : parseInt ts0 with
        | none =>
          simp only [runFrom, hts0, hpi0]
          intro hmem
          simp only [List.mem_cons] at hmem
          rcases hmem with hmem | hmem
          · cases hmem
          · exact ih (i + 1) j' step ts t k a hj' hts hpi hbrk hk' hmem
        | some t0 =>
          by_cases hbrk0 : cfg.time_end ≤ int64wrap (cfg.time_start + t0)
          · simp only [runFrom, hts0, hpi0, if_pos hbrk0]
            simp
          · cases hf : (stepOut cfg host i s).fatal with
            | true =>
              simp only [runFrom, hts0, hpi0, if_neg hbrk0, hf, if_true]
              intro hmem
              simp only [List.mem_cons] at hmem
              rcases hmem with hmem | hmem
              · cases hmem
                omega
              · exact stepOut_events_no_dispatched cfg host i s k a hmem
            | false =>
              simp only [runFrom, hts0, hpi0, if_neg hbrk0, hf, Bool.false_eq_true,
                if_false]
              intro hmem
              simp only [List.mem_cons, List.mem_append] at hmem
              rcases hmem with hmem | hmem | hmem
              · cases hmem
                omega
              · exact stepOut_events_no_dispatched cfg host i s k a hmem
              · exact ih (i + 1) j' step ts t k a hj' hts hpi hbrk hk' hmem

/-- C1 (amended): for every JOIN step, the executor attempts
`Host.JoinWorld` up to 99 times (the loop runs 100 iterations, but
iteration `i = 99` only logs the error and breaks, so at most 99
`JoinWorld` calls are made), with a 100 ms sleep after each failed
attempt; the first attempt that returns no error stores the returned
World reference in `SessionState` and stops retrying; if all 99
attempts fail, an error is logged and the step is abandoned with no
World referenced, and execution continues with the next step (a JOIN
step whose contact read succeeds is never fatal). -/
theorem C1_join_retry_behavior :
    (∀ att : Nat → Option World,
      (joinLoop att).assigns.length ≤ 99
      ∧ ((∀ k, k < 99 → att k = none) →
          joinLoop att = ⟨List.replicate 99 none, true, 99⟩
          ∧ (joinLoop att).world = none)
      ∧ (∀ k w, k < 99 → att k = some w → (∀ j, j < k → att j = none) →
          joinLoop att = ⟨List.replicate k none ++ [some w], false, k⟩
          ∧ (joinLoop att).world = some w))
    ∧ (∀ (cfg : RunConfig) (host : HostOracle) (i : Nat) (step : StepDesc) (c : String),
        stepGetD step "do" = "join" →
        host.ReadFile (pathJoin cfg.contact_dir (stepGetD step "id" ++ "_id")) = some c →
        (stepOut cfg host i step).fatal = false
        ∧ (stepOut cfg host i step).ops
            = ExecOp.clearWorld ::
                ((joinLoop (host.JoinWorld i)).assigns.map ExecOp.joinAssign)) := by
  constructor
  · intro att
    refine ⟨?_, ?_, ?_⟩
    · simpa using joinLoopGo_length_le att 100 0 rfl (by omega)
    · intro hfail
      have h := joinLoopGo_all_fail att 100 0 rfl (by omega)
        (fun k _ hk => hfail k hk)
      simp only [Nat.sub_zero] at h
      refine ⟨h, ?_⟩
      show (joinLoopGo att 0 100).world = none
      rw [h]
      simp only [JoinResult.world]
      rw [show (99 : Nat) = 98 + 1 from rfl, List.replicate_succ']
      simp
    · intro k w hk hattk hprev
      have h := joinLoopGo_first_success att 100 0 k w rfl (by omega) hk hattk
        (fun j _ hj => hprev j hj)
      simp only [Nat.sub_zero] at h
      refine ⟨h, ?_⟩
      show (joinLoopGo att 0 100).world = some w
      rw [h]
      simp [JoinResult.world]
  · intro cfg host i step c hdo hrd
    constructor
    · simp [stepOut, hdo, hrd]
    · simp [stepOut, hdo, hrd]

/-- C1 counterexample: the claim promises up to 100 attempts, but with
an environment in which only the 100th attempt (loop iteration 99)
would succeed, the code gives up after 99 failed `JoinWorld` calls,
logs the join failure, and leaves no World referenced — the successful
100th attempt is never made. -/
theorem C1_counterexample :
    (joinLoop (fun i => if i = 99 then some ⟨"w"⟩ else none)).world = none
    ∧ (joinLoop (fun i => if i = 99 then some ⟨"w"⟩ else none)).error_logged = true
    ∧ (joinLoop (fun i => if i = 99 then some ⟨"w"⟩ else none)).assigns.length = 99 := by
  refine ⟨?_, ?_, ?_⟩ <;> decide

/-- Witness for `C1_join_retry_behavior` at concrete inputs. -/
theorem C1_witness :
    (joinLoop (fun _ => none) = ⟨List.replicate 99 none, true, 99⟩)
    ∧ (joinLoop (fun i => if i = 2 then some ⟨"w"⟩ else none)).world = some ⟨"w"⟩ := by
  constructor
  · exact ((C1_join_retry_behavior.1 (fun _ => none)).2.1 (fun k _ => rfl)).1
  · refine ((C1_join_retry_behavior.1 _).2.2 2 ⟨"w"⟩ (by omega) (by simp) ?_).2
    intro j hj
    simp [show j ≠ 2 by omega]

/-- C2: if a step's computed target instant `time_start + time_offset`
(as the Go `int64` addition computes it) is at or past `time_end`,
neither that step nor any later step is ever dispatched: the executor
stops at the first such step. -/
theorem C2_stop_at_time_end (cfg : RunConfig) (host : HostOracle)
    (steps : List StepDesc) (j : Nat) (step : StepDesc) (ts : String) (t : Int)
    (k : Nat) (a : String)
    (hj : steps.get? j = some step)
    (hts : stepGet step "time" = some ts)
    (hpi : parseInt ts = some t)
    (hbrk : cfg.time_end ≤ int64wrap (cfg.time_start + t))
    (hk : j ≤ k) :
    ExecEvent.dispatched k a ∉ (run cfg host steps).events :=
  runFrom_no_dispatch_ge cfg host steps 0 j step ts t k a hj hts hpi hbrk
    (by omega)

/-- Witness for `C2_stop_at_time_end` at a concrete scenario. -/
theorem C2_witness :
    (([[("time", "5"), ("do", "open")]] : List StepDesc).get? 0
        = some [("time", "5"), ("do", "open")])
    ∧ parseInt "5" = some 5
    ∧ (3 : Int) ≤ int64wrap (0 + 5)
    ∧ ExecEvent.dispatched 0 "open" ∉
        (run ⟨"cd", 0, 3⟩ ⟨fun _ => none, fun _ _ => none, fun _ => ⟨"A"⟩⟩
          [[("time", "5"), ("do", "open")]]).events := by
  refine ⟨by decide, by decide, by decide, ?_⟩
  exact C2_stop_at_time_end ⟨"cd", 0, 3⟩ ⟨fun _ => none, fun _ _ => none, fun _ => ⟨"A"⟩⟩
    [[("time", "5"), ("do", "open")]] 0 [("time", "5"), ("do", "open")] "5" 5 0 "open"
    (by decide) (by decide) (by decide) (by decide) (by omega)

/-- C3: at every instant of every interleaved run, `SessionState`
references at most one World (structural in the model: the reference is
an `Option World`), and a World reference is never stored over an
existing one without that one being released and logged first: the
only operations that store a reference are `openWorld`, which closes
and logs the old world in the same lock-protected region, and
`joinAssign`, which `overwrites` certifies never fires while a world
is referenced. -/
theorem C3_close_before_assign (cfg : RunConfig) (host : HostOracle)
    (steps : List StepDesc) (evs : List HostEvent) (sched : List Bool) :
    (sysRun (initSys cfg host steps evs) sched).st.overwrites = 0 := by
  obtain ⟨c, hc⟩ := assignFlag_runFrom cfg host steps 0 false
  have h := sysRun_overwrites sched (initSys cfg host steps evs) false
    (by
      show assignFlag false (runFrom cfg host 0 steps).ops ≠ none
      rw [hc]
      simp)
    (by
      intro hsome
      simp [initSys, initState] at hsome)
  simpa [initSys, initState] using h

/-- C6: a step whose descriptor lacks the `time` key, or whose `time`
value does not parse as an integer, is skipped with a warning: the run
on the remaining steps is exactly the run without the malformed step
(same operations, same fatality), prefixed by the warning. -/
theorem C6_malformed_time_skipped (cfg : RunConfig) (host : HostOracle) (i : Nat)
    (step : StepDesc) (rest : List StepDesc) :
    (stepGet step "time" = none →
      runFrom cfg host i (step :: rest)
        = ⟨ExecEvent.warn_missing_time i :: (runFrom cfg host (i + 1) rest).events,
           (runFrom cfg host (i + 1) rest).ops,
           (runFrom cfg host (i + 1) rest).fatal⟩)
    ∧ (∀ ts, stepGet step "time" = some ts → parseInt ts = none →
        runFrom cfg host i (step :: rest)
          = ⟨ExecEvent.warn_bad_time i ts :: (runFrom cfg host (i + 1) rest).events,
             (runFrom cfg host (i + 1) rest).ops,
             (runFrom cfg host (i + 1) rest).fatal⟩) := by
  constructor
  · intro h
    simp [runFrom, h]
  · intro ts h hpi
    simp [runFrom, h, hpi]

/-- Witness for `C6_malformed_time_skipped`: the spec's own example
`{"do":"join"}` is skipped with a warning and the following well-formed
step still runs. -/
theorem C6_witness :
    runFrom ⟨"cd", 0, 10⟩ ⟨fun _ => none, fun _ _ => none, fun _ => ⟨"A"⟩⟩ 0
        [[("do", "join")], [("time", "0"), ("do", "open")]]
      = ⟨ExecEvent.warn_missing_time 0 ::
          (runFrom ⟨"cd", 0, 10⟩ ⟨fun _ => none, fun _ _ => none, fun _ => ⟨"A"⟩⟩ 1
            [[("time", "0"), ("do", "open")]]).events,
         (runFrom ⟨"cd", 0, 10⟩ ⟨fun _ => none, fun _ _ => none, fun _ => ⟨"A"⟩⟩ 1
            [[("time", "0"), ("do", "open")]]).ops,
         (runFrom ⟨"cd", 0, 10⟩ ⟨fun _ => none, fun _ _ => none, fun _ => ⟨"A"⟩⟩ 1
            [[("time", "0"), ("do", "open")]]).fatal⟩ :=
  (C6_malformed_time_skipped ⟨"cd", 0, 10⟩
    ⟨fun _ => none, fun _ _ => none, fun _ => ⟨"A"⟩⟩ 0
    [("do", "join")] [[("time", "0"), ("do", "open")]]).1 (by decide)

/-- C4 counterexample: the executor does close the trace sink exactly
once after the timeline, but the event-consumer loop keeps running
(it stops only when the host's event channel closes), so an event that
arrives after the close still triggers an `Fprintf` on the closed
sink.  Scenario: one OPEN step; the executor runs to completion and
closes the sink; then a matching `SessionReady` event is handled and
performs a write after the close — refuting "no write to the trace
sink is performed by any part of the engine after that close". -/
theorem C4_counterexample :
    (sysRun (initSys ⟨"cd", 0, 10⟩
        ⟨fun _ => some "d", fun _ _ => none, fun _ => ⟨"A"⟩⟩
        [[("time", "0"), ("do", "open")]]
        [HostEvent.sessionReady ⟨"A"⟩ "s1"])
        [true, true, false]).st.writes_after_close = 1
    ∧ (sysRun (initSys ⟨"cd", 0, 10⟩
        ⟨fun _ => some "d", fun _ _ => none, fun _ => ⟨"A"⟩⟩
        [[("time", "0"), ("do", "open")]]
        [HostEvent.sessionReady ⟨"A"⟩ "s1"])
        [true, true, false]).st.close_count = 1 := by
  constructor <;> decide

/-- C4 (amended): when the run is not aborted by a fatal read, the
executor closes the sink exactly once, as its final operation after
the whole step list (the wall-clock wait until `time_end` before the
close is real time, outside the model); the executor itself never
writes after the close.  The event consumer, however, may still write
after the close (see the counterexample), so the no-writes-after-close
guarantee holds only for the executor. -/
theorem C4_close_once_executor_writes (cfg : RunConfig) (host : HostOracle)
    (steps : List StepDesc) (evs : List HostEvent) (sched : List Bool)
    (hnf : (run cfg host steps).fatal = false) :
    (∃ l, (run cfg host steps).ops = l ++ [ExecOp.closeSink] ∧ ExecOp.closeSink ∉ l)
    ∧ (sysRun (initSys cfg host steps evs) sched).st.close_count
        + countClose (sysRun (initSys cfg host steps evs) sched).ops = 1
    ∧ (sysRun (initSys cfg host steps evs) sched).st.exec_writes_after_close = 0 := by
  obtain ⟨l, hl, hnl⟩ := (runFrom_ops_closeSink cfg host steps 0).1 hnf
  have hcz : countClose l = 0 := countClose_eq_zero l hnl
  have hinv := sysRun_close_inv sched (initSys cfg host steps evs) rfl
    (by
      show (0 : Nat) + countClose (runFrom cfg host 0 steps).ops = 1
      rw [hl, countClose_append]
      simp [countClose, hcz])
    (Or.inl ⟨rfl, l, hl, hnl⟩)
  exact ⟨⟨l, hl, hnl⟩, hinv.2, hinv.1⟩

/-- Witness for `C4_close_once_executor_writes` at a concrete run. -/
theorem C4_witness :
    (run ⟨"cd", 0, 10⟩ ⟨fun _ => some "d", fun _ _ => none, fun _ => ⟨"A"⟩⟩
        [[("time", "0"), ("do", "open")]]).fatal = false
    ∧ (sysRun (initSys ⟨"cd", 0, 10⟩
          ⟨fun _ => some "d", fun _ _ => none, fun _ => ⟨"A"⟩⟩
          [[("time", "0"), ("do", "open")]]
          [HostEvent.sessionReady ⟨"A"⟩ "s1"]) [true, true, false]).st.close_count
        + countClose (sysRun (initSys ⟨"cd", 0, 10⟩
          ⟨fun _ => some "d", fun _ _ => none, fun _ => ⟨"A"⟩⟩
          [[("time", "0"), ("do", "open")]]
          [HostEvent.sessionReady ⟨"A"⟩ "s1"]) [true, true, false]).ops = 1
    ∧ (sysRun (initSys ⟨"cd", 0, 10⟩
          ⟨fun _ => some "d", fun _ _ => none, fun _ => ⟨"A"⟩⟩
          [[("time", "0"), ("do", "open")]]
          [HostEvent.sessionReady ⟨"A"⟩ "s1"]) [true, true, false]).st.exec_writes_after_close
        = 0 := by
  refine ⟨by decide, ?_, ?_⟩
  · exact (C4_close_once_executor_writes ⟨"cd", 0, 10⟩
      ⟨fun _ => some "d", fun _ _ => none, fun _ => ⟨"A"⟩⟩
      [[("time", "0"), ("do", "open")]]
      [HostEvent.sessionReady ⟨"A"⟩ "s1"] [true, true, false] (by decide)).2.1
  · exact (C4_close_once_executor_writes ⟨"cd", 0, 10⟩
      ⟨fun _ => some "d", fun _ _ => none, fun _ => ⟨"A"⟩⟩
      [[("time", "0"), ("do", "open")]]
      [HostEvent.sessionReady ⟨"A"⟩ "s1"] [true, true, false] (by decide)).2.2

/-- C7: for an ADD or DIAL step reached by the timeline, a failed read
of the required contact-store artifact (root certificate or handshake
certificate for ADD, identity hash for DIAL) is fatal: the run ends at
the `log.Fatalf`, no further step runs, and the sink is never closed. -/
theorem C7_contact_read_fatal (cfg : RunConfig) (host : HostOracle) (i : Nat)
    (step : StepDesc) (rest : List StepDesc) (ts : String) (t : Int)
    (hts : stepGet step "time" = some ts)
    (hpi : parseInt ts = some t)
    (hlt : int64wrap (cfg.time_start + t) < cfg.time_end) :
    (stepGetD step "do" = "add" →
      (host.ReadFile (pathJoin cfg.contact_dir (stepGetD step "id" ++ "_rc")) = none →
        runFrom cfg host i (step :: rest)
          = ⟨[ExecEvent.dispatched i "add",
              ExecEvent.read_call (pathJoin cfg.contact_dir (stepGetD step "id" ++ "_rc")),
              ExecEvent.fatal_read (pathJoin cfg.contact_dir (stepGetD step "id" ++ "_rc"))],
             [], true⟩)
      ∧ (∀ rc, host.ReadFile (pathJoin cfg.contact_dir (stepGetD step "id" ++ "_rc"))
            = some rc →
          host.ReadFile (pathJoin cfg.contact_dir (stepGetD step "id" ++ "_hs")) = none →
          runFrom cfg host i (step :: rest)
            = ⟨[ExecEvent.dispatched i "add",
                ExecEvent.read_call (pathJoin cfg.contact_dir (stepGetD step "id" ++ "_rc")),
                ExecEvent.read_call (pathJoin cfg.contact_dir (stepGetD step "id" ++ "_hs")),
                ExecEvent.fatal_read (pathJoin cfg.contact_dir (stepGetD step "id" ++ "_hs"))],
               [], true⟩))
    ∧ (stepGetD step "do" = "dial" →
        host.ReadFile (pathJoin cfg.contact_dir (stepGetD step "id" ++ "_id")) = none →
        runFrom cfg host i (step :: rest)
          = ⟨[ExecEvent.dispatched i "dial",
              ExecEvent.read_call (pathJoin cfg.contact_dir (stepGetD step "id" ++ "_id")),
              ExecEvent.fatal_read (pathJoin cfg.contact_dir (stepGetD step "id" ++ "_id"))],
             [], true⟩) := by
  have hnbrk : ¬ cfg.time_end ≤ int64wrap (cfg.time_start + t) := not_le.mpr hlt
  constructor
  · intro hdo
    constructor
    · intro hread
      have hso : stepOut cfg host i step
          = ⟨[ExecEvent.read_call (pathJoin cfg.contact_dir (stepGetD step "id" ++ "_rc")),
              ExecEvent.fatal_read (pathJoin cfg.contact_dir (stepGetD step "id" ++ "_rc"))],
             [], true⟩ := by
        simp [stepOut, hdo, hread]
      simp [runFrom, hts, hpi, if_neg hnbrk, hso, hdo]
    · intro rc hrc hhs
      have hso : stepOut cfg host i step
          = ⟨[ExecEvent.read_call (pathJoin cfg.contact_dir (stepGetD step "id" ++ "_rc")),
              ExecEvent.read_call (pathJoin cfg.contact_dir (stepGetD step "id" ++ "_hs")),
              ExecEvent.fatal_read (pathJoin cfg.contact_dir (stepGetD step "id" ++ "_hs"))],
             [], true⟩ := by
        simp [stepOut, hdo, hrc, hhs]
      simp [runFrom, hts, hpi, if_neg hnbrk, hso, hdo]
  · intro hdo hread
    have hso : stepOut cfg host i step
        = ⟨[ExecEvent.read_call (pathJoin cfg.contact_dir (stepGetD step "id" ++ "_id")),
            ExecEvent.fatal_read (pathJoin cfg.contact_dir (stepGetD step "id" ++ "_id"))],
           [], true⟩ := by
      simp [stepOut, hdo, hread]
    simp [runFrom, hts, hpi, if_neg hnbrk, hso, hdo]

/-- Witness for `C7_contact_read_fatal` at a concrete broken scenario. -/
theorem C7_witness :
    stepGetD [("time", "0"), ("do", "add"), ("id", "p1")] "do" = "add"
    ∧ runFrom ⟨"cd", 0, 10⟩ ⟨fun _ => none, fun _ _ => none, fun _ => ⟨"A"⟩⟩ 0
        [[("time", "0"), ("do", "add"), ("id", "p1")], [("time", "1"), ("do", "open")]]
      = ⟨[ExecEvent.dispatched 0 "add",
          ExecEvent.read_call (pathJoin "cd" ("p1" ++ "_rc")),
          ExecEvent.fatal_read (pathJoin "cd" ("p1" ++ "_rc"))],
         [], true⟩ := by
  refine ⟨by decide, ?_⟩
  exact ((C7_contact_read_fatal ⟨"cd", 0, 10⟩
    ⟨fun _ => none, fun _ _ => none, fun _ => ⟨"A"⟩⟩ 0
    [("time", "0"), ("do", "add"), ("id", "p1")] [[("time", "1"), ("do", "open")]]
    "0" 0 (by decide) (by decide) (by decide)).1 (by decide)).1 (by decide)

/-- C8: every `HandleEvents` dispatch filters on session identity: an
event with no associated world (`ObjectAppend`, `ObjectDelete`) has no
effect; an event whose associated world does not match the currently
referenced one (or arriving while none is referenced) has no effect;
a matching event performs exactly its action: expose + `E` line for
`WorldEnter`, accept for `SessionRequest`, `J` line for
`SessionReady`, `L` line for `SessionClose`. -/
theorem C8_event_session_filter (w : Option World) :
    (∀ e, eventWorld e = none → handleEvent w e = ⟨w, [], [], []⟩)
    ∧ (∀ e v, eventWorld e = some v → sessionMatches w v = false →
        handleEvent w e = ⟨w, [], [], []⟩)
    ∧ (∀ cw v, w = some cw → cw.session_id = v.session_id →
        handleEvent w (HostEvent.worldEnter v)
          = ⟨w, [⟨'E', v.session_id, v.session_id⟩], [cw.session_id], []⟩)
    ∧ (∀ cw v peer sid, w = some cw → cw.session_id = v.session_id →
        handleEvent w (HostEvent.sessionRequest v peer sid)
          = ⟨w, [], [], [(cw.session_id, peer, sid)]⟩)
    ∧ (∀ cw v sid, w = some cw → cw.session_id = v.session_id →
        handleEvent w (HostEvent.sessionReady v sid)
          = ⟨w, [⟨'J', sid, v.session_id⟩], [], []⟩)
    ∧ (∀ cw v sid, w = some cw → cw.session_id = v.session_id →
        handleEvent w (HostEvent.sessionClose v sid)
          = ⟨w, [⟨'L', sid, v.session_id⟩], [], []⟩) := by
  refine ⟨?_, ?_, ?_, ?_, ?_, ?_⟩
  · intro e he
    cases e <;> simp [eventWorld] at he ⊢ <;> simp [handleEvent]
  · intro e v he hm
    cases e <;> simp [eventWorld] at he <;> subst he <;>
      cases w <;> simp [sessionMatches] at hm <;> simp [handleEvent, hm]
  · intro cw v hw hsid
    subst hw
    simp [handleEvent, hsid]
  · intro cw v peer sid hw hsid
    subst hw
    simp [handleEvent, hsid]
  · intro cw v sid hw hsid
    subst hw
    simp [handleEvent, hsid]
  · intro cw v sid hw hsid
    subst hw
    simp [handleEvent, hsid]

/-- Witness for `C8_event_session_filter` at concrete events. -/
theorem C8_witness :
    handleEvent (some ⟨"A"⟩) HostEvent.objectAppend = ⟨some ⟨"A"⟩, [], [], []⟩
    ∧ handleEvent (some ⟨"A"⟩) (HostEvent.sessionReady ⟨"B"⟩ "s")
        = ⟨some ⟨"A"⟩, [], [], []⟩
    ∧ handleEvent (some ⟨"A"⟩) (HostEvent.sessionReady ⟨"A"⟩ "s")
        = ⟨some ⟨"A"⟩, [⟨'J', "s", "A"⟩], [], []⟩ :=
  ⟨(C8_event_session_filter (some ⟨"A"⟩)).1 HostEvent.objectAppend rfl,
   (C8_event_session_filter (some ⟨"A"⟩)).2.1 (HostEvent.sessionReady ⟨"B"⟩ "s") ⟨"B"⟩
     rfl (by decide),
   (C8_event_session_filter (some ⟨"A"⟩)).2.2.2.2.1 ⟨"A"⟩ ⟨"A"⟩ "s" rfl rfl⟩

/-- C9: a `WorldLeave` event whose associated world matches the
currently referenced one clears the `SessionState` reference and
writes exactly one `X` trace line whose subject is that world's
session id; no world is referenced afterwards. -/
theorem C9_world_leave_clears (cw v : World)
    (hsid : cw.session_id = v.session_id) :
    handleEvent (some cw) (HostEvent.worldLeave v)
      = ⟨none, [⟨'X', v.session_id, v.session_id⟩], [], []⟩ := by
  simp [handleEvent, hsid]

/-- Witness for `C9_world_leave_clears`. -/
theorem C9_witness :
    handleEvent (some ⟨"A"⟩) (HostEvent.worldLeave ⟨"A"⟩)
      = ⟨none, [⟨'X', "A", "A"⟩], [], []⟩ :=
  C9_world_leave_clears ⟨"A"⟩ ⟨"A"⟩ rfl

/-- C10: an ADD, DIAL or JOIN step without an `id` key is not skipped
and produces no warning: the Go map lookup yields `""`, so the step is
dispatched and reads the contact file whose name is the bare suffix
(`_rc`/`_hs` for ADD, `_id` for DIAL and JOIN) inside the contact
directory; for ADD and DIAL a missing file then surfaces as a fatal
read failure at execution time — there is no load-time validation. -/
theorem C10_missing_id_bare_suffix (cfg : RunConfig) (host : HostOracle) (i : Nat)
    (step : StepDesc) (rest : List StepDesc) (ts : String) (t : Int)
    (hid : stepGet step "id" = none)
    (hts : stepGet step "time" = some ts)
    (hpi : parseInt ts = some t)
    (hlt : int64wrap (cfg.time_start + t) < cfg.time_end) :
    (stepGetD step "do" = "add" →
      (∃ es, (runFrom cfg host i (step :: rest)).events
          = ExecEvent.dispatched i "add"
            :: ExecEvent.read_call (pathJoin cfg.contact_dir "_rc") :: es)
      ∧ (host.ReadFile (pathJoin cfg.contact_dir "_rc") = none →
          runFrom cfg host i (step :: rest)
            = ⟨[ExecEvent.dispatched i "add",
                ExecEvent.read_call (pathJoin cfg.contact_dir "_rc"),
                ExecEvent.fatal_read (pathJoin cfg.contact_dir "_rc")], [], true⟩))
    ∧ (stepGetD step "do" = "dial" →
      (∃ es, (runFrom cfg host i (step :: rest)).events
          = ExecEvent.dispatched i "dial"
            :: ExecEvent.read_call (pathJoin cfg.contact_dir "_id") :: es)
      ∧ (host.ReadFile (pathJoin cfg.contact_dir "_id") = none →
          runFrom cfg host i (step :: rest)
            = ⟨[ExecEvent.dispatched i "dial",
                ExecEvent.read_call (pathJoin cfg.contact_dir "_id"),
                ExecEvent.fatal_read (pathJoin cfg.contact_dir "_id")], [], true⟩))
    ∧ (stepGetD step "do" = "join" →
      (∃ es, (runFrom cfg host i (step :: rest)).events
          = ExecEvent.dispatched i "join"
            :: ExecEvent.read_call (pathJoin cfg.contact_dir "_id") :: es)
      ∧ (host.ReadFile (pathJoin cfg.contact_dir "_id") = none →
          runFrom cfg host i (step :: rest)
            = ⟨[ExecEvent.dispatched i "join",
                ExecEvent.read_call (pathJoin cfg.contact_dir "_id"),
                ExecEvent.fatal_read (pathJoin cfg.contact_dir "_id")], [], true⟩)) := by
  have hnbrk : ¬ cfg.time_end ≤ int64wrap (cfg.time_start + t) := not_le.mpr hlt
  have hidD : stepGetD step "id" = "" := by simp [stepGetD, hid]
  have hname_rc : stepGetD step "id" ++ "_rc" = "_rc" := by rw [hidD]; decide
  have hname_hs : stepGetD step "id" ++ "_hs" = "_hs" := by rw [hidD]; decide
  have hname_id : stepGetD step "id" ++ "_id" = "_id" := by rw [hidD]; decide
  refine ⟨?_, ?_, ?_⟩
  · intro hdo
    constructor
    · cases hrc : host.ReadFile (pathJoin cfg.contact_dir "_rc") with
      | none =>
        refine ⟨[ExecEvent.fatal_read (pathJoin cfg.contact_dir "_rc")], ?_⟩
        have hso : stepOut cfg host i step
            = ⟨[ExecEvent.read_call (pathJoin cfg.contact_dir "_rc"),
                ExecEvent.fatal_read (pathJoin cfg.contact_dir "_rc")], [], true⟩ := by
          simp [stepOut, hdo, hname_rc, hrc]
        simp [runFrom, hts, hpi, if_neg hnbrk, hso, hdo]
      | some rc =>
        cases hhs : host.ReadFile (pathJoin cfg.contact_dir "_hs") with
        | none =>
          refine ⟨[ExecEvent.read_call (pathJoin cfg.contact_dir "_hs"),
            ExecEvent.fatal_read (pathJoin cfg.contact_dir "_hs")], ?_⟩
          have hso : stepOut cfg host i step
              = ⟨[ExecEvent.read_call (pathJoin cfg.contact_dir "_rc"),
                  ExecEvent.read_call (pathJoin cfg.contact_dir "_hs"),
                  ExecEvent.fatal_read (pathJoin cfg.contact_dir "_hs")], [], true⟩ := by
            simp [stepOut, hdo, hname_rc, hname_hs, hrc, hhs]
          simp [runFrom, hts, hpi, if_neg hnbrk, hso, hdo]
        | some hs =>
          refine ⟨ExecEvent.read_call (pathJoin cfg.contact_dir "_hs")
            :: ExecEvent.append_known_peer rc hs
            :: (runFrom cfg host (i + 1) rest).events, ?_⟩
          have hso : stepOut cfg host i step
              = ⟨[ExecEvent.read_call (pathJoin cfg.contact_dir "_rc"),
                  ExecEvent.read_call (pathJoin cfg.contact_dir "_hs"),
                  ExecEvent.append_known_peer rc hs], [], false⟩ := by
            simp [stepOut, hdo, hname_rc, hname_hs, hrc, hhs]
          simp [runFrom, hts, hpi, if_neg hnbrk, hso, hdo]
    · intro hrc
      have hso : stepOut cfg host i step
          = ⟨[ExecEvent.read_call (pathJoin cfg.contact_dir "_rc"),
              ExecEvent.fatal_read (pathJoin cfg.contact_dir "_rc")], [], true⟩ := by
        simp [stepOut, hdo, hname_rc, hrc]
      simp [runFrom, hts, hpi, if_neg hnbrk, hso, hdo]
  · intro hdo
    constructor
    · cases hrd : host.ReadFile (pathJoin cfg.contact_dir "_id") with
      | none =>
        refine ⟨[ExecEvent.fatal_read (pathJoin cfg.contact_dir "_id")], ?_⟩
        have hso : stepOut cfg host i step
            = ⟨[ExecEvent.read_call (pathJoin cfg.contact_dir "_id"),
                ExecEvent.fatal_read (pathJoin cfg.contact_dir "_id")], [], true⟩ := by
          simp [stepOut, hdo, hname_id, hrd]
        simp [runFrom, hts, hpi, if_neg hnbrk, hso, hdo]
      | some idh =>
        refine ⟨ExecEvent.dial_call idh :: (runFrom cfg host (i + 1) rest).events, ?_⟩
        have hso : stepOut cfg host i step
            = ⟨[ExecEvent.read_call (pathJoin cfg.contact_dir "_id"),
                ExecEvent.dial_call idh], [], false⟩ := by
          simp [stepOut, hdo, hname_id, hrd]
        simp [runFrom, hts, hpi, if_neg hnbrk, hso, hdo]
    · intro hrd
      have hso : stepOut cfg host i step
          = ⟨[ExecEvent.read_call (pathJoin cfg.contact_dir "_id"),
              ExecEvent.fatal_read (pathJoin cfg.contact_dir "_id")], [], true⟩ := by
        simp [stepOut, hdo, hname_id, hrd]
      simp [runFrom, hts, hpi, if_neg hnbrk, hso, hdo]
  · intro hdo
    constructor
    · cases hrd : host.ReadFile (pathJoin cfg.contact_dir "_id") with
      | none =>
        refine ⟨[ExecEvent.fatal_read (pathJoin cfg.contact_dir "_id")], ?_⟩
        have hso : stepOut cfg host i step
            = ⟨[ExecEvent.read_call (pathJoin cfg.contact_dir "_id"),
                ExecEvent.fatal_read (pathJoin cfg.contact_dir "_id")], [], true⟩ := by
          simp [stepOut, hdo, hname_id, hrd]
        simp [runFrom, hts, hpi, if_neg hnbrk, hso, hdo]
      | some c =>
        refine ⟨(runFrom cfg host (i + 1) rest).events, ?_⟩
        have hso : stepOut cfg host i step
            = ⟨[ExecEvent.read_call (pathJoin cfg.contact_dir "_id")],
               ExecOp.clearWorld ::
                 ((joinLoop (host.JoinWorld i)).assigns.map ExecOp.joinAssign),
               false⟩ := by
          simp [stepOut, hdo, hname_id, hrd]
        simp [runFrom, hts, hpi, if_neg hnbrk, hso, hdo]
    · intro hrd
      have hso : stepOut cfg host i step
          = ⟨[ExecEvent.read_call (pathJoin cfg.contact_dir "_id"),
              ExecEvent.fatal_read (pathJoin cfg.contact_dir "_id")], [], true⟩ := by
        simp [stepOut, hdo, hname_id, hrd]
      simp [runFrom, hts, hpi, if_neg hnbrk, hso, hdo]

/-- Witness for `C10_missing_id_bare_suffix`: an ADD step with no `id`
key reads `_rc` inside the contact directory and dies on the missing
file. -/
theorem C10_witness :
    stepGet [("time", "0"), ("do", "add")] "id" = none
    ∧ runFrom ⟨"cd", 0, 10⟩ ⟨fun _ => none, fun _ _ => none, fun _ => ⟨"A"⟩⟩ 0
        [[("time", "0"), ("do", "add")], [("time", "1"), ("do", "open")]]
      = ⟨[ExecEvent.dispatched 0 "add",
          ExecEvent.read_call (pathJoin "cd" "_rc"),
          ExecEvent.fatal_read (pathJoin "cd" "_rc")], [], true⟩ := by
  refine ⟨by decide, ?_⟩
  exact ((C10_missing_id_bare_suffix ⟨"cd", 0, 10⟩
    ⟨fun _ => none, fun _ _ => none, fun _ => ⟨"A"⟩⟩ 0
    [("time", "0"), ("do", "add")] [[("time", "1"), ("do", "open")]] "0" 0
    (by decide) (by decide) (by decide) (by decide)).1 (by decide)).2 (by decide)

/-- C5: in any interleaved run in which the worlds supplied by the
host carry pairwise distinct session ids (each session id is assignable
at most once — session ids identify worlds), whenever the executor is
about to replace a referenced world `old` — by an `openWorld`
operation whose new world has session id `σ`, or by the `clearWorld`
preamble of a JOIN step whose later successful assignment has session
id `σ` — then the final trace contains exactly one `X` line with
subject `old.session_id`, that line sits exactly at the replacement
point, and every trace line concerning the new world (`wsid = σ`)
comes strictly after it. -/
theorem C5_x_line_precedes_new_world (cfg : RunConfig) (host : HostOracle)
    (steps : List StepDesc) (evs : List HostEvent) (s₁ s₂ : List Bool)
    (old : World) (σ : String)
    (H : ∀ τ, countAssign τ (run cfg host steps).ops ≤ 1)
    (hw : (sysRun (initSys cfg host steps evs) s₁).st.world = some old)
    (hop : (∃ v rest, (sysRun (initSys cfg host steps evs) s₁).ops
              = ExecOp.openWorld v :: rest ∧ σ = v.session_id)
         ∨ (∃ rest, (sysRun (initSys cfg host steps evs) s₁).ops
              = ExecOp.clearWorld :: rest ∧ 1 ≤ countAssign σ rest)) :
    countX old.session_id
        (sysRun (initSys cfg host steps evs) (s₁ ++ true :: s₂)).st.trace = 1
    ∧ (sysRun (initSys cfg host steps evs) (s₁ ++ true :: s₂)).st.trace.get?
        (sysRun (initSys cfg host steps evs) s₁).st.trace.length
        = some ⟨'X', old.session_id, old.session_id⟩
    ∧ (∀ i l, i ≤ (sysRun (initSys cfg host steps evs) s₁).st.trace.length →
        (sysRun (initSys cfg host steps evs) (s₁ ++ true :: s₂)).st.trace.get? i
          = some l →
        l.wsid ≠ σ) := by
  have hInv0 : SysInv (initSys cfg host steps evs) :=
    sysInv_init (run cfg host steps).ops evs H
  set m := sysRun (initSys cfg host steps evs) s₁ with hm
  have hInvm : SysInv m := sysInv_run hInv0 s₁
  have hlm := hInvm.live old.session_id
  rw [liveCount, hw, currentIs_self] at hlm
  have hCA : countAssign old.session_id m.ops = 0 := by omega
  have hCX : countX old.session_id m.st.trace = 0 := by omega
  have hcommon : 1 ≤ countAssign σ m.ops
      ∧ (sysStep m true).st.trace
          = m.st.trace ++ [⟨'X', old.session_id, old.session_id⟩] := by
    rcases hop with ⟨v, rest, hops, hσ⟩ | ⟨rest, hops, hσca⟩
    · constructor
      · rw [hops, hσ]
        simp [countAssign]
      · simp [sysStep, hops, applyExecOp, hw, sysWrite]
    · constructor
      · rw [hops]
        simpa [countAssign] using hσca
      · simp [sysStep, hops, applyExecOp, hw, sysWrite]
  obtain ⟨hσca_ops, htr'⟩ := hcommon
  have hσold : σ ≠ old.session_id := by
    intro hcontra
    rw [hcontra] at hσca_ops
    omega
  set m' := sysStep m true with hm'
  have hInvm' : SysInv m' := sysInv_step hInvm true
  set f := sysRun m' s₂ with hf
  have hInvf : SysInv f := sysInv_run hInvm' s₂
  have hfrun : sysRun (initSys cfg host steps evs) (s₁ ++ true :: s₂) = f := by
    rw [sysRun_append]
    rfl
  rw [hfrun]
  obtain ⟨t, ht⟩ := sysRun_trace_extends s₂ m'
  have htrace : f.st.trace
      = m.st.trace ++ (⟨'X', old.session_id, old.session_id⟩ :: t) := by
    rw [ht, htr']
    simp
  have hxf_le : countX old.session_id f.st.trace ≤ 1 := by
    have hlf := hInvf.live old.session_id
    rw [liveCount] at hlf
    omega
  have hx1 : countX old.session_id f.st.trace = 1 := by
    have hco : countX old.session_id (⟨'X', old.session_id, old.session_id⟩ :: t)
        = 1 + countX old.session_id t := by
      simp [countX]
    rw [htrace, countX_append, hco] at hxf_le ⊢
    omega
  have hget : f.st.trace.get? m.st.trace.length
      = some ⟨'X', old.session_id, old.session_id⟩ := by
    rw [htrace]
    rw [List.get?_append_right (le_refl _)]
    simp
  refine ⟨hx1, hget, ?_⟩
  intro i l hi hg
  rcases Nat.lt_or_ge i m.st.trace.length with hlt | hge
  · rw [htrace, List.get?_append hlt] at hg
    have hmem : l ∈ m.st.trace := List.get?_mem hg
    have hfresh := hInvm.fresh l hmem
    intro hcontra
    rw [hcontra] at hfresh
    omega
  · have hieq : i = m.st.trace.length := by omega
    subst hieq
    rw [hget] at hg
    cases hg
    show old.session_id ≠ σ
    exact fun hc => hσold hc.symm

/-- Witness for `C5_x_line_precedes_new_world`: a second OPEN replaces
the world opened first; the `X` line for world `A` is the first trace
line, strictly before anything concerning world `B`. -/
theorem C5_witness :
    countX "A" (sysRun (initSys ⟨"cd", 0, 10⟩
        ⟨fun _ => some "d", fun _ _ => none, fun i => if i = 0 then ⟨"A"⟩ else ⟨"B"⟩⟩
        [[("time", "0"), ("do", "open")], [("time", "1"), ("do", "open")]] [])
        [true, true, true]).st.trace = 1
    ∧ (sysRun (initSys ⟨"cd", 0, 10⟩
        ⟨fun _ => some "d", fun _ _ => none, fun i => if i = 0 then ⟨"A"⟩ else ⟨"B"⟩⟩
        [[("time", "0"), ("do", "open")], [("time", "1"), ("do", "open")]] [])
        [true, true, true]).st.trace.get? 0 = some ⟨'X', "A", "A"⟩
    ∧ (∀ i l, i ≤ 0 →
        (sysRun (initSys ⟨"cd", 0, 10⟩
          ⟨fun _ => some "d", fun _ _ => none, fun i => if i = 0 then ⟨"A"⟩ else ⟨"B"⟩⟩
          [[("time", "0"), ("do", "open")], [("time", "1"), ("do", "open")]] [])
          [true, true, true]).st.trace.get? i = some l →
        l.wsid ≠ "B") := by
  have hops : (run ⟨"cd", 0, 10⟩
      ⟨fun _ => some "d", fun _ _ => none, fun i => if i = 0 then ⟨"A"⟩ else ⟨"B"⟩⟩
      [[("time", "0"), ("do", "open")], [("time", "1"), ("do", "open")]]).ops
      = [ExecOp.openWorld ⟨"A"⟩, ExecOp.openWorld ⟨"B"⟩, ExecOp.closeSink] := by
    decide
  have H : ∀ τ, countAssign τ (run ⟨"cd", 0, 10⟩
      ⟨fun _ => some "d", fun _ _ => none, fun i => if i = 0 then ⟨"A"⟩ else ⟨"B"⟩⟩
      [[("time", "0"), ("do", "open")], [("time", "1"), ("do", "open")]]).ops ≤ 1 := by
    intro τ
    rw [hops]
    by_cases h1 : ("A" : String) = τ <;> by_cases h2 : ("B" : String) = τ
    · exact absurd (h1.trans h2.symm) (by decide)
    · simp [countAssign, h1, h2]
    · simp [countAssign, h1, h2]
    · simp [countAssign, h1, h2]
  have h := C5_x_line_precedes_new_world ⟨"cd", 0, 10⟩
    ⟨fun _ => some "d", fun _ _ => none, fun i => if i = 0 then ⟨"A"⟩ else ⟨"B"⟩⟩
    [[("time", "0"), ("do", "open")], [("time", "1"), ("do", "open")]] []
    [true] [true] ⟨"A"⟩ "B" H (by decide)
    (Or.inl ⟨⟨"B"⟩, [ExecOp.closeSink], by decide, rfl⟩)
  have hlen : (sysRun (initSys ⟨"cd", 0, 10⟩
      ⟨fun _ => some "d", fun _ _ => none, fun i => if i = 0 then ⟨"A"⟩ else ⟨"B"⟩⟩
      [[("time", "0"), ("do", "open")], [("time", "1"), ("do", "open")]] [])
      [true]).st.trace.length = 0 := by decide
  rw [hlen] at h
  exact h

end AbyssScenario
